import Mathlib

/-!
Verification of the normalized checkpoint store of `vscode-checkpoints`
(`src/CheckpointsModel.ts`), shallowly embedded in Lean.

JavaScript objects used as string-keyed dictionaries (`byId`) are embedded as
association lists `List (String × α)` with JS object semantics: assignment
replaces the value at an existing key in place (keeping insertion order) and
appends otherwise; `delete` removes the key; lookup returns the value at the
key or `none`.  Arrays are `List`.  `undefined`-returning lookups are `Option`.
Operations that fire events and schedule persistence writes return an
`EngineResult` recording the new store, the notifications fired and the store
snapshots handed to `workspaceState.update`, plus whether the operation threw
a `TypeError` (dereferencing `undefined`).
-/

/-- Lookup in a JS object: the value stored at key `k`, or `none`. -/
def alookup {α : Type} : List (String × α) → String → Option α
  | [], _ => none
  | (k', v) :: t, k => if k' = k then some v else alookup t k

/-- JS object assignment `m[k] = v`: replaces the value at `k` in place if the
key exists, otherwise appends the key at the end (JS insertion order). -/
def aset {α : Type} : List (String × α) → String → α → List (String × α)
  | [], k, v => [(k, v)]
  | (k', v') :: t, k, v => if k' = k then (k, v) :: t else (k', v') :: aset t k v

/-- JS `delete m[k]`: removes the key. -/
def adel {α : Type} (m : List (String × α)) (k : String) : List (String × α) :=
  m.filter (fun p => p.1 != k)

/-- The keys of a JS object, in insertion order. -/
def keysOf {α : Type} (m : List (String × α)) : List String :=
  m.map Prod.fst

/-- Remove the first occurrence of `x`, or report that it is absent. -/
def eraseFirst : List String → String → Option (List String)
  | [], _ => none
  | a :: t, x => if a = x then some t else (eraseFirst t x).map (a :: ·)

/-- The source pattern `let i = arr.findIndex(y => y == x); arr.splice(i, 1)`.
When `x` is present this removes its first occurrence; when it is absent,
`findIndex` returns `-1` and JS `splice(-1, 1)` removes the LAST element of
the array (a genuine quirk of the source's deletion helpers). -/
def findIndexSplice1 (l : List String) (x : String) : List String :=
  match eraseFirst l x with
  | some l' => l'
  | none => l.dropLast

/-- JS `s.substr(start, len)` for a non-negative start. -/
def jsSubstr (s : String) (start len : Nat) : String :=
  String.mk ((s.toList.drop start).take len)

/-- Node `path.dirname` (posix): everything before the last `/` that is
followed by a non-slash character, with the root-handling of Node's scanner
(which scans indices `len-1 .. 1` only). -/
def dirname (s : String) : String :=
  if s.length = 0 then "." else
    let cs := s.toList
    let hasRoot := cs.headD ' ' = '/'
    let t := (cs.reverse.dropWhile (fun c => c = '/')).dropWhile (fun c => c ≠ '/')
    if t.length ≤ 1 then (if hasRoot then "/" else ".")
    else if hasRoot ∧ t.length - 1 = 1 then "//"
    else String.mk (cs.take (t.length - 1))

/-- Node `path.basename` (posix): the maximal run of non-slash characters
before the trailing slashes. -/
def basename (s : String) : String :=
  String.mk (((s.toList.reverse.dropWhile (fun c => c = '/')).takeWhile (fun c => c ≠ '/')).reverse)

/-- `ICheckpoint` of `CheckpointsModel.ts`. -/
structure ICheckpoint where
  id : String
  parent : String
  timestamp : Nat
  name : String
  text : String
deriving DecidableEq

/-- `IFile` of `CheckpointsModel.ts`. -/
structure IFile where
  id : String
  name : String
  extraName : String
  fileNameDuplicates : List String
  checkpointIds : List String
  selection : String
deriving DecidableEq

/-- The `files` / `checkpoints` sub-objects of the store: a `byId` dictionary
plus an `allIds` insertion-ordered sequence. -/
structure FilesTable where
  byId : List (String × IFile)
  allIds : List String
deriving DecidableEq

structure CheckpointsTable where
  byId : List (String × ICheckpoint)
  allIds : List String
deriving DecidableEq

/-- `ICheckpointStore`. The legacy persisted shape has no `version` field;
JS tests it with `!version`, so absent and `0` coincide and `version` is a
`Nat` with `0` meaning absent-or-zero. -/
structure ICheckpointStore where
  version : Nat
  files : FilesTable
  checkpoints : CheckpointsTable
deriving DecidableEq

/-- `createEmptyStore`. -/
def createEmptyStore : ICheckpointStore :=
  { version := 1
    files := { byId := [], allIds := [] }
    checkpoints := { byId := [], allIds := [] } }

/-- A vscode `Uri`, reduced to the parts the model reads: its scheme and the
rest of its canonical string form. -/
structure JsUri where
  scheme : String
  rest : String
deriving DecidableEq

/-- `Uri.toString()`. -/
def uriToString (u : JsUri) : String := u.scheme ++ ":" ++ u.rest

/-- Items carried by the `onDidRemoveCheckpoint` / `onDidUpdateItem` events:
`ICheckpoint | IFile | ICheckpointStore`. -/
inductive Item where
  | cp (c : ICheckpoint)
  | file (f : IFile)
  | store (s : ICheckpointStore)
deriving DecidableEq

/-- One fired notification, tagged with the emitter it came from. -/
inductive Notif where
  | added (c : ICheckpoint)
  | removed (it : Item)
  | updated (it : Item)
  | contextChanged (u : JsUri)
deriving DecidableEq

/-- Result of one engine operation: the store afterwards, the notifications
fired, the snapshots passed to `updateWorkspaceState` (in order), and whether
the operation threw a `TypeError` by dereferencing `undefined`. -/
structure EngineResult where
  store : ICheckpointStore
  notifs : List Notif
  persists : List ICheckpointStore
  exn : Bool
deriving DecidableEq

/-- The source declares `private readonly maxLengthFileName: 15;` — a bare
type annotation with NO initializer, so the field's runtime value is
`undefined`, embedded as `none`. -/
def maxLengthFileName : Option Nat := none

/-- JS `a > b` when `b` may be `undefined`: any comparison against
`undefined` is `false`. -/
def jsGtOpt (a : Nat) (b : Option Nat) : Bool :=
  match b with
  | none => false
  | some m => decide (a > m)

/-- Update one file entry of the store. -/
def setFileById (st : ICheckpointStore) (k : String) (f : IFile) : ICheckpointStore :=
  { st with files := { st.files with byId := aset st.files.byId k f } }

/-- The loop body of `handleNewDuplicates`: walk `files.allIds`, and for every
existing file whose `name` equals the new file's `name`, push the existing
file's id onto the new file's `fileNameDuplicates` and the new file's id onto
the existing file's `fileNameDuplicates`.  A missing `byId` entry (impossible
while `byId`'s keys track `allIds`) is skipped; in JS it would throw. -/
def handleNewDuplicatesGo : List String → ICheckpointStore → IFile → ICheckpointStore × IFile
  | [], st, nf => (st, nf)
  | fid :: rest, st, nf =>
    match alookup st.files.byId fid with
    | none => handleNewDuplicatesGo rest st nf
    | some f =>
      if nf.name = f.name then
        handleNewDuplicatesGo rest
          (setFileById st fid { f with fileNameDuplicates := f.fileNameDuplicates ++ [nf.id] })
          { nf with fileNameDuplicates := nf.fileNameDuplicates ++ [f.id] }
      else handleNewDuplicatesGo rest st nf

/-- `handleNewDuplicates(newFile)`, returning the updated store and the new
file with its accumulated `fileNameDuplicates`. -/
def handleNewDuplicates (st : ICheckpointStore) (nf : IFile) : ICheckpointStore × IFile :=
  handleNewDuplicatesGo st.files.allIds st nf

/-- The `extraName` computed by `add` for a new file: `path.dirname` of the
document id, then the truncation guard `extraName.length > this.maxLengthFileName`,
which never fires because `maxLengthFileName` is `undefined` (see
`maxLengthFileName`). -/
def addExtraName (documentId : String) : String :=
  let extraName := dirname documentId
  if jsGtOpt extraName.length maxLengthFileName then
    "..." ++ jsSubstr extraName (extraName.length - 15) (extraName.length - 1)
  else extraName

/-- The file record `add` builds before running duplicate bookkeeping. -/
def addNewFile (documentId : String) : IFile :=
  { id := documentId, name := basename documentId, extraName := addExtraName documentId
    fileNameDuplicates := [], checkpointIds := [], selection := "" }

/-- The first phase of `add`: if there is no entry for the document, build the
file record, run `handleNewDuplicates`, store the file under its id and push
the id onto `files.allIds`. -/
def addFilePhase (st : ICheckpointStore) (documentId : String) : ICheckpointStore :=
  if (alookup st.files.byId documentId).isSome then st
  else
    let p := handleNewDuplicates st (addNewFile documentId)
    { p.1 with files := { byId := aset p.1.files.byId p.2.id p.2
                          allIds := p.1.files.allIds ++ [p.2.id] } }

/-- The checkpoint object `add` creates and fires:
`{ parent: documentId, timestamp, text, name, id: timestamp.toString() }`. -/
def addCp (documentId text name : String) (timestamp : Nat) : ICheckpoint :=
  { id := toString timestamp, parent := documentId, timestamp := timestamp
    name := name, text := text }

/-- The second phase of `add`: register the checkpoint in
`checkpoints.byId` and push its id onto `checkpoints.allIds`. -/
def addCpPhase (st : ICheckpointStore) (cp : ICheckpoint) : ICheckpointStore :=
  { st with
    checkpoints := { byId := aset st.checkpoints.byId cp.id cp
                     allIds := st.checkpoints.allIds ++ [cp.id] } }

/-- The third phase of `add`:
`this.checkpointStore.files.byId[checkpoint.parent].checkpointIds.push(checkpoint.id)`.
A missing parent entry (impossible right after `addFilePhase`) is a no-op; in
JS it would throw. -/
def addParentPhase (st : ICheckpointStore) (cp : ICheckpoint) : ICheckpointStore :=
  match alookup st.files.byId cp.parent with
  | some f => setFileById st cp.parent { f with checkpointIds := f.checkpointIds ++ [cp.id] }
  | none => st

/-- `add(document, name, timestamp)` — the store transition.  Creates the file
entry on first use (running duplicate bookkeeping), creates the checkpoint with
id `timestamp.toString()`, registers it in `checkpoints.byId`/`allIds` and
appends it to the parent file's `checkpointIds`. -/
def addStore (st : ICheckpointStore) (documentId text name : String) (timestamp : Nat) :
    ICheckpointStore :=
  addParentPhase (addCpPhase (addFilePhase st documentId) (addCp documentId text name timestamp))
    (addCp documentId text name timestamp)

/-- `add` with its effects: fires `added(checkpoint)` and persists the new
store once. -/
def add (st : ICheckpointStore) (documentId text name : String) (timestamp : Nat) :
    EngineResult :=
  let st' := addStore st documentId text name timestamp
  { store := st', notifs := [Notif.added (addCp documentId text name timestamp)]
    persists := [st'], exn := false }

/-- `getCheckpoint(id)`. -/
def getCheckpoint (st : ICheckpointStore) (id : String) : Option ICheckpoint :=
  alookup st.checkpoints.byId id

/-- `getFile(id)`. -/
def getFile (st : ICheckpointStore) (id : String) : Option IFile :=
  alookup st.files.byId id

/-- The loop body of `handleRemovedDuplicates`: for each id in the removed
file's `fileNameDuplicates`, remove the removed file's id from that file's
`fileNameDuplicates` via `findIndex` + `splice(idx, 1)` (with the JS
`splice(-1, 1)` remove-the-last quirk when the reverse reference is missing).
A missing `byId` entry is skipped; in JS it would throw. -/
def handleRemovedDuplicatesGo : List String → ICheckpointStore → String → ICheckpointStore
  | [], st, _ => st
  | fid :: rest, st, removedId =>
    match alookup st.files.byId fid with
    | none => handleRemovedDuplicatesGo rest st removedId
    | some df =>
      handleRemovedDuplicatesGo rest
        (setFileById st fid
          { df with fileNameDuplicates := findIndexSplice1 df.fileNameDuplicates removedId })
        removedId

/-- `handleRemovedDuplicates(removedFile)`. -/
def handleRemovedDuplicates (st : ICheckpointStore) (removedFile : IFile) : ICheckpointStore :=
  handleRemovedDuplicatesGo removedFile.fileNameDuplicates st removedFile.id

/-- `deleteCheckpoint(id)` — the store transition plus the returned checkpoint
(`none` when the checkpoint does not exist).  Removes the checkpoint from
`byId` and `allIds`, clears the owning file's `selection` if it pointed at it,
filters it out of the file's `checkpointIds`, and deletes the file (with
duplicate-name teardown) when its `checkpointIds` becomes empty. -/
def deleteCheckpoint (st : ICheckpointStore) (id : String) :
    ICheckpointStore × Option ICheckpoint :=
  match getCheckpoint st id with
  | none => (st, none)
  | some cp =>
    let st1 := { st with
      checkpoints := { byId := adel st.checkpoints.byId cp.id
                       allIds := findIndexSplice1 st.checkpoints.allIds cp.id } }
    match getFile st1 cp.parent with
    | none => (st1, some cp)
    | some file =>
      let file1 := if file.selection = id then { file with selection := "" } else file
      let file2 := { file1 with checkpointIds := file1.checkpointIds.filter (fun i => i != cp.id) }
      let st2 := setFileById st1 cp.parent file2
      if file2.checkpointIds.length = 0 then
        let st3 := { st2 with
          files := { byId := adel st2.files.byId file2.id
                     allIds := findIndexSplice1 st2.files.allIds file2.id } }
        (handleRemovedDuplicates st3 file2, some cp)
      else (st2, some cp)

/-- `clearFile(id)` — deletes every checkpoint of the file (iterating over the
snapshot of `checkpointIds` taken at loop entry, as JS `for..of` does) and
returns the file object that was looked up (`none` if the file is unknown). -/
def clearFile (st : ICheckpointStore) (id : String) : ICheckpointStore × Option IFile :=
  match getFile st id with
  | none => (st, none)
  | some file =>
    (file.checkpointIds.foldl (fun s cid => (deleteCheckpoint s cid).1) st, some file)

/-- `remove(id?)`: with no id, `clearAll` replaces the store by a fresh empty
store, persists it (inside `clearAll`), fires `removed` carrying the NEW empty
store (the value `clearAll` returns after the reassignment), and persists again
at the end of `remove`.  With an id, try the file then the checkpoint; when
neither resolves, warn and do nothing (no notification, no persistence). -/
def remove (st : ICheckpointStore) (id : Option String) : EngineResult :=
  match id with
  | none =>
    { store := createEmptyStore
      notifs := [Notif.removed (Item.store createEmptyStore)]
      persists := [createEmptyStore, createEmptyStore], exn := false }
  | some i =>
    match getFile st i with
    | some _ =>
      let p := clearFile st i
      match p.2 with
      | some f =>
        { store := p.1, notifs := [Notif.removed (Item.file f)]
          persists := [p.1], exn := false }
      | none => { store := st, notifs := [], persists := [], exn := false }
    | none =>
      match getCheckpoint st i with
      | some _ =>
        let q := deleteCheckpoint st i
        match q.2 with
        | some cp =>
          { store := q.1, notifs := [Notif.removed (Item.cp cp)]
            persists := [q.1], exn := false }
        | none => { store := st, notifs := [], persists := [], exn := false }
      | none => { store := st, notifs := [], persists := [], exn := false }

/-- `renameCheckpoint(id, newName)`.  The source has NO not-found guard: it
does `let checkpoint = this.getCheckpoint(id); checkpoint.name = newName;`, so
an unknown id makes the property assignment throw a `TypeError`
(`exn := true`) with the store untouched, nothing fired and nothing persisted.
On success it mutates the name in place and fires `updated(checkpoint)` — and
never persists. -/
def renameCheckpoint (st : ICheckpointStore) (id newName : String) : EngineResult :=
  match getCheckpoint st id with
  | none => { store := st, notifs := [], persists := [], exn := true }
  | some cp =>
    let cp' := { cp with name := newName }
    { store := { st with
        checkpoints := { st.checkpoints with byId := aset st.checkpoints.byId id cp' } }
      notifs := [Notif.updated (Item.cp cp')], persists := [], exn := false }

/-- `selectCheckpoint(checkpointId)`: guarded against an unknown checkpoint
(logs and returns); then sets the owning file's `selection`.  If the parent
file were missing, the JS `file.selection = ...` would throw (`exn`).  Fires
`updated(file)` and never persists. -/
def selectCheckpoint (st : ICheckpointStore) (checkpointId : String) : EngineResult :=
  match getCheckpoint st checkpointId with
  | none => { store := st, notifs := [], persists := [], exn := false }
  | some cp =>
    match alookup st.files.byId cp.parent with
    | none => { store := st, notifs := [], persists := [], exn := true }
    | some file =>
      let file' := { file with selection := cp.id }
      { store := setFileById st cp.parent file'
        notifs := [Notif.updated (Item.file file')], persists := [], exn := false }

/-- `clearSelectionFromFile(fileId)`: guarded against an unknown file; sets
`selection` to the empty string, fires `updated(file)`, never persists. -/
def clearSelectionFromFile (st : ICheckpointStore) (fileId : String) : EngineResult :=
  match getFile st fileId with
  | none => { store := st, notifs := [], persists := [], exn := false }
  | some file =>
    let file' := { file with selection := "" }
    { store := setFileById st fileId file'
      notifs := [Notif.updated (Item.file file')], persists := [], exn := false }

/-- The `checkpointContext` setter.  The guard is
`if (current && (current.toString() === uri.toString() || uri.scheme === 'checkpointsDocumentView')) return;`
— note that BOTH suppressions require a current context to exist (be truthy);
with no context set yet even a preview-scheme uri is stored and fired. -/
def setCheckpointContext (current : Option JsUri) (fileUri : JsUri) :
    Option JsUri × List Notif :=
  match current with
  | some cur =>
    if uriToString cur = uriToString fileUri ∨ fileUri.scheme = "checkpointsDocumentView" then
      (some cur, [])
    else (some fileUri, [Notif.contextChanged fileUri])
  | none => (some fileUri, [Notif.contextChanged fileUri])

/-- Modelled from the spec: `vscode.Uri.file(path).toString()` — the canonical
URI string form of a file-system path.  The vscode `Uri` class is external to
this repository; only the fact that the migration applies some conversion
matters for the claims settled here. -/
def uriFileToString (p : String) : String := "file://" ++ p

/-- The file-id rewrite loop of the migration inside `getWorkspaceSate`:
`files.allIds = files.allIds.map(id => { ... })`, moving each `byId` entry to
the `Uri.file(id).toString()` key.  A missing `byId` entry is skipped with the
id kept (in JS the inner assignment throws and the catch returns the old id). -/
def migrateFilesGo : List String → List (String × IFile) → List String × List (String × IFile)
  | [], m => ([], m)
  | id :: rest, m =>
    match alookup m id with
    | none =>
      let p := migrateFilesGo rest m
      (id :: p.1, p.2)
    | some f =>
      let newId := uriFileToString id
      let p := migrateFilesGo rest (adel (aset m newId { f with id := newId }) id)
      (newId :: p.1, p.2)

/-- The checkpoint-parent rewrite loop of the migration. -/
def migrateCpsGo : List String → List (String × ICheckpoint) → List (String × ICheckpoint)
  | [], m => m
  | id :: rest, m =>
    match alookup m id with
    | none => migrateCpsGo rest m
    | some cp => migrateCpsGo rest (aset m id { cp with parent := uriFileToString cp.parent })

/-- The whole migration body: rewrite file ids, rewrite checkpoint parents,
bump `version` to 1. -/
def migrateStore (st : ICheckpointStore) : ICheckpointStore :=
  let p := migrateFilesGo st.files.allIds st.files.byId
  let cps := migrateCpsGo st.checkpoints.allIds st.checkpoints.byId
  { version := 1
    files := { byId := p.2, allIds := p.1 }
    checkpoints := { byId := cps, allIds := st.checkpoints.allIds } }

/-- `getWorkspaceSate()` (the source's spelling): load the persisted store (or
a fresh empty one), and iff `!version` (absent or 0) run the migration and
persist the migrated store.  Returns the store plus the persistence writes. -/
def getWorkspaceSate (stored : Option ICheckpointStore) :
    ICheckpointStore × List ICheckpointStore :=
  let st := match stored with
    | none => createEmptyStore
    | some s => s
  if st.version = 0 then
    let st' := migrateStore st
    (st', [st'])
  else (st, [])

/-- One recorded `add` call (the engine's claim C1 quantifies over sequences
of these). -/
structure AddOp where
  documentId : String
  text : String
  name : String
  timestamp : Nat
deriving DecidableEq

def applyAddOp (st : ICheckpointStore) (o : AddOp) : ICheckpointStore :=
  (add st o.documentId o.text o.name o.timestamp).store

/-- The store after a sequence of `add` calls starting from the empty store. -/
def runAdds (ops : List AddOp) : ICheckpointStore :=
  ops.foldl applyAddOp createEmptyStore

/-- One mutating engine operation (for claims quantifying over "every
operation"). -/
inductive Op where
  | addOp (documentId text name : String) (timestamp : Nat)
  | removeOp (id : Option String)
  | renameOp (id newName : String)
  | selectOp (checkpointId : String)
  | clearSelectionOp (fileId : String)
deriving DecidableEq

def applyOp (st : ICheckpointStore) (o : Op) : ICheckpointStore :=
  match o with
  | .addOp d x n t => (add st d x n t).store
  | .removeOp i => (remove st i).store
  | .renameOp i n => (renameCheckpoint st i n).store
  | .selectOp c => (selectCheckpoint st c).store
  | .clearSelectionOp f => (clearSelectionFromFile st f).store

/-- The store after a sequence of engine operations starting from the empty
store. -/
def runOps (ops : List Op) : ICheckpointStore :=
  ops.foldl applyOp createEmptyStore

/-- The ids of the files whose `checkpointIds` contains `c` — the claim's
"files in whose `checkpointIds` a checkpoint id appears". -/
def filesContaining (st : ICheckpointStore) (c : String) : List String :=
  st.files.allIds.filter (fun fid =>
    match alookup st.files.byId fid with
    | some f => f.checkpointIds.contains c
    | none => false)

/-- Claim C1's property of a store: every checkpoint id in
`checkpoints.allIds` appears in exactly one file's `checkpointIds`, and every
checkpoint's `parent` is a file in `files.allIds` whose `checkpointIds`
contains the checkpoint's id. -/
def C1Prop (st : ICheckpointStore) : Prop :=
  (∀ c ∈ st.checkpoints.allIds, (filesContaining st c).length = 1) ∧
  (∀ p ∈ st.checkpoints.byId,
    p.2.parent ∈ st.files.allIds ∧
    ∃ f, alookup st.files.byId p.2.parent = some f ∧ p.2.id ∈ f.checkpointIds)

/-- Well-formedness of a store — the spec's §3 invariants, phrased
decidably: `allIds` duplicate-free and exactly tracking the `byId` keys (in
order), entries keyed by their own `id`, a file's `checkpointIds`
duplicate-free and pointing at checkpoints whose `parent` is the file, and a
checkpoint's `parent` pointing at a file whose `checkpointIds` contains it. -/
@[reducible] def StoreWF (st : ICheckpointStore) : Prop :=
  st.files.allIds.Nodup ∧
  keysOf st.files.byId = st.files.allIds ∧
  st.checkpoints.allIds.Nodup ∧
  keysOf st.checkpoints.byId = st.checkpoints.allIds ∧
  (∀ p ∈ st.files.byId, p.2.id = p.1 ∧ p.2.checkpointIds.Nodup ∧
    ∀ c ∈ p.2.checkpointIds,
      Option.map ICheckpoint.parent (alookup st.checkpoints.byId c) = some p.1) ∧
  (∀ p ∈ st.checkpoints.byId, p.2.id = p.1 ∧
    Option.map (fun f => f.checkpointIds.contains p.1) (alookup st.files.byId p.2.parent) =
      some true)

/-- Two file records agreeing on everything except `fileNameDuplicates` —
the only field the duplicate-name bookkeeping ever touches. -/
def sameButDups (f g : IFile) : Prop :=
  g.id = f.id ∧ g.name = f.name ∧ g.extraName = f.extraName ∧
  g.checkpointIds = f.checkpointIds ∧ g.selection = f.selection

/-- Lift a relation to `Option`, requiring equal definedness. -/
def optRel {α : Type} (r : α → α → Prop) : Option α → Option α → Prop
  | none, none => True
  | some a, some b => r a b
  | _, _ => False

/-- The induction invariant for sequences of `add` calls with fresh checkpoint
ids: the `allIds` sequences are duplicate-free and track the `byId` keys in
order, entries are keyed by their own `id`, every id in a file's
`checkpointIds` resolves to a checkpoint whose `parent` is that file, and
every checkpoint's `parent` resolves to a file whose `checkpointIds` contains
the checkpoint. -/
structure AddInv (st : ICheckpointStore) : Prop where
  fnodup : st.files.allIds.Nodup
  fkeys : keysOf st.files.byId = st.files.allIds
  cnodup : st.checkpoints.allIds.Nodup
  ckeys : keysOf st.checkpoints.byId = st.checkpoints.allIds
  fileOk : ∀ fid g, alookup st.files.byId fid = some g → g.id = fid ∧
    ∀ c ∈ g.checkpointIds, ∃ cp, alookup st.checkpoints.byId c = some cp ∧ cp.parent = fid
  cpOk : ∀ c cp, alookup st.checkpoints.byId c = some cp → cp.id = c ∧
    ∃ g, alookup st.files.byId cp.parent = some g ∧ c ∈ g.checkpointIds

/-- The induction invariant for the duplicate-name relation, preserved by
every engine operation: `files.allIds` duplicate-free and tracking the `byId`
keys, entries keyed by their own `id`, and each file's `fileNameDuplicates`
duplicate-free, not containing the file itself, symmetric (with matching
names, pointing at present files), and complete (any two distinct present
files with equal names list each other). -/
structure DupInv (st : ICheckpointStore) : Prop where
  fnodup : st.files.allIds.Nodup
  fkeys : keysOf st.files.byId = st.files.allIds
  fid : ∀ k g, alookup st.files.byId k = some g → g.id = k
  dnodup : ∀ k g, alookup st.files.byId k = some g → g.fileNameDuplicates.Nodup
  dself : ∀ k g, alookup st.files.byId k = some g → k ∉ g.fileNameDuplicates
  dsym : ∀ k g, alookup st.files.byId k = some g → ∀ d ∈ g.fileNameDuplicates,
    ∃ g2, alookup st.files.byId d = some g2 ∧ k ∈ g2.fileNameDuplicates ∧ g2.name = g.name
  dcomp : ∀ k g k2 g2, alookup st.files.byId k = some g → alookup st.files.byId k2 = some g2 →
    k ≠ k2 → g.name = g2.name → k2 ∈ g.fileNameDuplicates

/-- The ids among `l` whose store entry has display name `nm` — the set of
duplicate-name partners `handleNewDuplicates` collects for a new file named
`nm` while walking `l`. -/
def dupMatches (st : ICheckpointStore) (nm : String) (l : List String) : List String :=
  l.filter (fun fid =>
    match alookup st.files.byId fid with
    | some f => nm == f.name
    | none => false)

theorem keysOf_nil {α : Type} : keysOf ([] : List (String × α)) = [] := rfl

theorem keysOf_cons {α : Type} (k : String) (v : α) (t : List (String × α)) :
    keysOf ((k, v) :: t) = k :: keysOf t := rfl

theorem alookup_eq_none_iff {α : Type} (m : List (String × α)) (k : String) :
    alookup m k = none ↔ k ∉ keysOf m := by
  induction m with
  | nil => simp [alookup, keysOf]
  | cons p t ih =>
    obtain ⟨k0, v0⟩ := p
    by_cases h : k0 = k
    · simp [alookup, h, keysOf_cons]
    · have h' : k ≠ k0 := fun hh => h hh.symm
      simp [alookup, h, keysOf_cons, ih, h']

theorem alookup_aset_ne {α : Type} (m : List (String × α)) (k k' : String) (v : α)
    (h : k' ≠ k) : alookup (aset m k v) k' = alookup m k' := by
  have h' : k ≠ k' := Ne.symm h
  induction m with
  | nil => simp [aset, alookup, h']
  | cons p t ih =>
    obtain ⟨k0, v0⟩ := p
    by_cases h0 : k0 = k
    · subst h0
      simp [aset, alookup, h']
    · by_cases h1 : k0 = k'
      · subst h1
        simp [aset, h0, alookup]
      · simp [aset, h0, alookup, h1, ih]

theorem alookup_isSome_iff {α : Type} (m : List (String × α)) (k : String) :
    (alookup m k).isSome ↔ k ∈ keysOf m := by
  constructor
  · intro hs
    by_contra hk
    rw [← alookup_eq_none_iff] at hk
    rw [hk] at hs
    simp at hs
  · intro hk
    rcases hs : alookup m k with _ | v
    · rw [alookup_eq_none_iff] at hs
      exact absurd hk hs
    · simp

theorem keysOf_aset_of_not_mem {α : Type} (m : List (String × α)) (k : String) (v : α)
    (h : k ∉ keysOf m) : keysOf (aset m k v) = keysOf m ++ [k] := by
  induction m with
  | nil => simp [aset, keysOf]
  | cons p t ih =>
    obtain ⟨k0, v0⟩ := p
    rw [keysOf_cons, List.mem_cons, not_or] at h
    have h1 : k0 ≠ k := fun hh => h.1 hh.symm
    rw [aset, if_neg h1, keysOf_cons, ih h.2, keysOf_cons]
    simp

theorem keysOf_aset_of_mem {α : Type} (m : List (String × α)) (k : String) (v : α)
    (h : k ∈ keysOf m) : keysOf (aset m k v) = keysOf m := by
  induction m with
  | nil => simp [keysOf] at h
  | cons p t ih =>
    obtain ⟨k0, v0⟩ := p
    by_cases h0 : k0 = k
    · rw [aset, if_pos h0, keysOf_cons, keysOf_cons, h0]
    · rw [keysOf_cons, List.mem_cons] at h
      have h' : k ∈ keysOf t := by
        rcases h with h1 | h1
        · exact absurd h1.symm h0
        · exact h1
      rw [aset, if_neg h0, keysOf_cons, keysOf_cons, ih h']

theorem alookup_adel_self {α : Type} (m : List (String × α)) (k : String) :
    alookup (adel m k) k = none := by
  induction m with
  | nil => simp [adel, alookup]
  | cons p t ih =>
    obtain ⟨k0, v0⟩ := p
    by_cases h0 : k0 = k
    · have hb : (k0 != k) = false := by simp [h0]
      simpa [adel, List.filter, hb] using ih
    · have hb : (k0 != k) = true := by simp [h0]
      simpa [adel, List.filter, hb, alookup, h0] using ih

theorem alookup_adel_ne {α : Type} (m : List (String × α)) (k k' : String) (h : k' ≠ k) :
    alookup (adel m k) k' = alookup m k' := by
  induction m with
  | nil => simp [adel]
  | cons p t ih =>
    obtain ⟨k0, v0⟩ := p
    by_cases h0 : k0 = k
    · have hb : (k0 != k) = false := by simp [h0]
      have h2 : k0 ≠ k' := by rw [h0]; exact Ne.symm h
      simpa [adel, List.filter, hb, alookup, h2] using ih
    · have hb : (k0 != k) = true := by simp [h0]
      by_cases h1 : k0 = k'
      · subst h1
        simp [adel, List.filter, hb, alookup]
      · simpa [adel, List.filter, hb, alookup, h1] using ih

theorem keysOf_adel {α : Type} (m : List (String × α)) (k : String) :
    keysOf (adel m k) = (keysOf m).filter (fun x => x != k) := by
  induction m with
  | nil => simp [adel, keysOf]
  | cons p t ih =>
    obtain ⟨k0, v0⟩ := p
    by_cases h0 : k0 = k
    · have hb : (k0 != k) = false := by simp [h0]
      simpa [adel, List.filter, hb, keysOf_cons, keysOf] using ih
    · have hb : (k0 != k) = true := by simp [h0]
      simpa [adel, List.filter, hb, keysOf_cons, keysOf] using ih

theorem eraseFirst_of_mem (l : List String) (x : String) (h : x ∈ l) :
    eraseFirst l x = some (l.erase x) := by
  induction l with
  | nil => simp at h
  | cons a t ih =>
    by_cases h0 : a = x
    · simp [eraseFirst, h0, List.erase_cons]
    · rcases List.mem_cons.mp h with h1 | h1
      · exact absurd h1.symm h0
      · have hbeq : (a == x) = false := by simp [h0]
        simp [eraseFirst, h0, List.erase_cons, hbeq, ih h1]

theorem alookup_aset_self {α : Type} (m : List (String × α)) (k : String) (v : α) :
    alookup (aset m k v) k = some v := by
  induction m with
  | nil => simp [aset, alookup]
  | cons p t ih =>
    obtain ⟨k', v'⟩ := p
    by_cases h : k' = k
    · simp [aset, h, alookup]
    · simp [aset, h, alookup, ih]

theorem alookup_mem {α : Type} (m : List (String × α)) (k : String) (v : α)
    (h : alookup m k = some v) : (k, v) ∈ m := by
  induction m with
  | nil => simp [alookup] at h
  | cons p t ih =>
    obtain ⟨k0, v0⟩ := p
    by_cases h0 : k0 = k
    · subst h0
      simp [alookup] at h
      simp [h]
    · simp [alookup, h0] at h
      simp [ih h]

theorem findIndexSplice1_of_mem (l : List String) (x : String) (h : x ∈ l) :
    findIndexSplice1 l x = l.erase x := by
  simp [findIndexSplice1, eraseFirst_of_mem l x h]

theorem sameButDups_refl (f : IFile) : sameButDups f f := ⟨rfl, rfl, rfl, rfl, rfl⟩

theorem sameButDups_trans {f g h : IFile} (h1 : sameButDups f g) (h2 : sameButDups g h) :
    sameButDups f h := by
  obtain ⟨a1, b1, c1, d1, e1⟩ := h1
  obtain ⟨a2, b2, c2, d2, e2⟩ := h2
  exact ⟨a2.trans a1, b2.trans b1, c2.trans c1, d2.trans d1, e2.trans e1⟩

theorem optRel_refl {α : Type} (r : α → α → Prop) (hr : ∀ a, r a a) (o : Option α) :
    optRel r o o := by
  cases o with
  | none => trivial
  | some a => exact hr a

theorem optRel_trans {α : Type} {r : α → α → Prop}
    (hr : ∀ a b c, r a b → r b c → r a c) {x y z : Option α}
    (h1 : optRel r x y) (h2 : optRel r y z) : optRel r x z := by
  cases x with
  | none =>
    cases y with
    | none =>
      cases z with
      | none => trivial
      | some c => exact (h2 : False).elim
    | some b => exact (h1 : False).elim
  | some a =>
    cases y with
    | none => exact (h1 : False).elim
    | some b =>
      cases z with
      | none => exact (h2 : False).elim
      | some c => exact hr a b c h1 h2

theorem setFileById_checkpoints (st : ICheckpointStore) (k : String) (f : IFile) :
    (setFileById st k f).checkpoints = st.checkpoints := rfl

theorem setFileById_allIds (st : ICheckpointStore) (k : String) (f : IFile) :
    (setFileById st k f).files.allIds = st.files.allIds := rfl

theorem hndGo_checkpoints (l : List String) (st : ICheckpointStore) (nf : IFile) :
    (handleNewDuplicatesGo l st nf).1.checkpoints = st.checkpoints := by
  induction l generalizing st nf with
  | nil => rfl
  | cons fid rest ih =>
    rcases h : alookup st.files.byId fid with _ | f
    · simpa [handleNewDuplicatesGo, h] using ih st nf
    · by_cases hn : nf.name = f.name
      · simpa [handleNewDuplicatesGo, h, hn, setFileById] using
          ih (setFileById st fid { f with fileNameDuplicates := f.fileNameDuplicates ++ [nf.id] })
            { nf with fileNameDuplicates := nf.fileNameDuplicates ++ [f.id] }
      · simpa [handleNewDuplicatesGo, h, hn] using ih st nf

theorem hndGo_files_allIds (l : List String) (st : ICheckpointStore) (nf : IFile) :
    (handleNewDuplicatesGo l st nf).1.files.allIds = st.files.allIds := by
  induction l generalizing st nf with
  | nil => rfl
  | cons fid rest ih =>
    rcases h : alookup st.files.byId fid with _ | f
    · simpa [handleNewDuplicatesGo, h] using ih st nf
    · by_cases hn : nf.name = f.name
      · simpa [handleNewDuplicatesGo, h, hn, setFileById] using
          ih (setFileById st fid { f with fileNameDuplicates := f.fileNameDuplicates ++ [nf.id] })
            { nf with fileNameDuplicates := nf.fileNameDuplicates ++ [f.id] }
      · simpa [handleNewDuplicatesGo, h, hn] using ih st nf

theorem hndGo_version (l : List String) (st : ICheckpointStore) (nf : IFile) :
    (handleNewDuplicatesGo l st nf).1.version = st.version := by
  induction l generalizing st nf with
  | nil => rfl
  | cons fid rest ih =>
    rcases h : alookup st.files.byId fid with _ | f
    · simpa [handleNewDuplicatesGo, h] using ih st nf
    · by_cases hn : nf.name = f.name
      · simpa [handleNewDuplicatesGo, h, hn, setFileById] using
          ih (setFileById st fid { f with fileNameDuplicates := f.fileNameDuplicates ++ [nf.id] })
            { nf with fileNameDuplicates := nf.fileNameDuplicates ++ [f.id] }
      · simpa [handleNewDuplicatesGo, h, hn] using ih st nf

theorem hndGo_snd (l : List String) (st : ICheckpointStore) (nf : IFile) :
    sameButDups nf (handleNewDuplicatesGo l st nf).2 := by
  induction l generalizing st nf with
  | nil => exact sameButDups_refl nf
  | cons fid rest ih =>
    rcases h : alookup st.files.byId fid with _ | f
    · simpa [handleNewDuplicatesGo, h] using ih st nf
    · by_cases hn : nf.name = f.name
      · have step : sameButDups nf { nf with fileNameDuplicates := nf.fileNameDuplicates ++ [f.id] } :=
          ⟨rfl, rfl, rfl, rfl, rfl⟩
        exact (by simpa [handleNewDuplicatesGo, h, hn] using
          (sameButDups_trans step (ih (setFileById st fid
              { f with fileNameDuplicates := f.fileNameDuplicates ++ [nf.id] })
            { nf with fileNameDuplicates := nf.fileNameDuplicates ++ [f.id] })))
      · simpa [handleNewDuplicatesGo, h, hn] using ih st nf

theorem hndGo_lookup (l : List String) (st : ICheckpointStore) (nf : IFile) (k : String) :
    optRel sameButDups (alookup st.files.byId k)
      (alookup (handleNewDuplicatesGo l st nf).1.files.byId k) := by
  induction l generalizing st nf with
  | nil => exact optRel_refl sameButDups sameButDups_refl _
  | cons fid rest ih =>
    rcases h : alookup st.files.byId fid with _ | f
    · simpa [handleNewDuplicatesGo, h] using ih st nf
    · by_cases hn : nf.name = f.name
      · have step : optRel sameButDups (alookup st.files.byId k)
            (alookup (setFileById st fid
              { f with fileNameDuplicates := f.fileNameDuplicates ++ [nf.id] }).files.byId k) := by
          by_cases hk : k = fid
          · subst hk
            rw [show (setFileById st k { f with fileNameDuplicates := f.fileNameDuplicates ++ [nf.id] }).files.byId
                  = aset st.files.byId k { f with fileNameDuplicates := f.fileNameDuplicates ++ [nf.id] } from rfl,
                alookup_aset_self, h]
            exact ⟨rfl, rfl, rfl, rfl, rfl⟩
          · rw [show (setFileById st fid { f with fileNameDuplicates := f.fileNameDuplicates ++ [nf.id] }).files.byId
                  = aset st.files.byId fid { f with fileNameDuplicates := f.fileNameDuplicates ++ [nf.id] } from rfl,
                alookup_aset_ne _ _ _ _ hk]
            exact optRel_refl sameButDups sameButDups_refl _
        exact @optRel_trans IFile sameButDups (fun _ _ _ ha hb => sameButDups_trans ha hb) _ _ _ step
          (by simpa [handleNewDuplicatesGo, h, hn] using
            (ih (setFileById st fid { f with fileNameDuplicates := f.fileNameDuplicates ++ [nf.id] })
              { nf with fileNameDuplicates := nf.fileNameDuplicates ++ [f.id] }))
      · simpa [handleNewDuplicatesGo, h, hn] using ih st nf

theorem add_store (st : ICheckpointStore) (d x n : String) (t : Nat) :
    (add st d x n t).store = addStore st d x n t := rfl

theorem addFilePhase_of_isSome (st : ICheckpointStore) (d : String)
    (h : (alookup st.files.byId d).isSome) : addFilePhase st d = st := by
  simp [addFilePhase, h]

theorem addFilePhase_of_none (st : ICheckpointStore) (d : String)
    (h : alookup st.files.byId d = none) :
    addFilePhase st d =
      { (handleNewDuplicates st (addNewFile d)).1 with
        files := { byId := aset (handleNewDuplicates st (addNewFile d)).1.files.byId
                     (handleNewDuplicates st (addNewFile d)).2.id
                     (handleNewDuplicates st (addNewFile d)).2
                   allIds := (handleNewDuplicates st (addNewFile d)).1.files.allIds
                     ++ [(handleNewDuplicates st (addNewFile d)).2.id] } } := by
  simp [addFilePhase, h]

theorem handleNewDuplicates_snd_id (st : ICheckpointStore) (nf : IFile) :
    (handleNewDuplicates st nf).2.id = nf.id :=
  (hndGo_snd st.files.allIds st nf).1

theorem addFilePhase_checkpoints (st : ICheckpointStore) (d : String) :
    (addFilePhase st d).checkpoints = st.checkpoints := by
  rcases h : alookup st.files.byId d with _ | f0
  · rw [addFilePhase_of_none st d h]
    exact hndGo_checkpoints _ _ _
  · rw [addFilePhase_of_isSome st d (by simp [h])]

theorem addFilePhase_lookup_self_of_none (st : ICheckpointStore) (d : String)
    (h : alookup st.files.byId d = none) :
    ∃ f, alookup (addFilePhase st d).files.byId d = some f ∧
      sameButDups (addNewFile d) f := by
  have hsnd := hndGo_snd st.files.allIds st (addNewFile d)
  refine ⟨(handleNewDuplicates st (addNewFile d)).2, ?_, hsnd⟩
  have hid : (handleNewDuplicates st (addNewFile d)).2.id = d := by
    simpa [addNewFile] using handleNewDuplicates_snd_id st (addNewFile d)
  rw [addFilePhase_of_none st d h]
  show alookup (aset (handleNewDuplicates st (addNewFile d)).1.files.byId
      (handleNewDuplicates st (addNewFile d)).2.id
      (handleNewDuplicates st (addNewFile d)).2) d = _
  rw [hid, alookup_aset_self]

theorem addFilePhase_lookup_self (st : ICheckpointStore) (d : String) :
    ∃ f, alookup (addFilePhase st d).files.byId d = some f := by
  rcases h : alookup st.files.byId d with _ | f0
  · obtain ⟨f, hf, _⟩ := addFilePhase_lookup_self_of_none st d h
    exact ⟨f, hf⟩
  · refine ⟨f0, ?_⟩
    rw [addFilePhase_of_isSome st d (by simp [h])]
    exact h

theorem addFilePhase_lookup_other (st : ICheckpointStore) (d k : String) (hk : k ≠ d) :
    optRel sameButDups (alookup st.files.byId k) (alookup (addFilePhase st d).files.byId k) := by
  rcases h : alookup st.files.byId d with _ | f0
  · have hid : (handleNewDuplicates st (addNewFile d)).2.id = d := by
      simpa [addNewFile] using handleNewDuplicates_snd_id st (addNewFile d)
    have hbase : optRel sameButDups (alookup st.files.byId k)
        (alookup (handleNewDuplicates st (addNewFile d)).1.files.byId k) :=
      hndGo_lookup st.files.allIds st (addNewFile d) k
    rw [addFilePhase_of_none st d h]
    show optRel sameButDups (alookup st.files.byId k)
      (alookup (aset (handleNewDuplicates st (addNewFile d)).1.files.byId
        (handleNewDuplicates st (addNewFile d)).2.id
        (handleNewDuplicates st (addNewFile d)).2) k)
    rw [hid, alookup_aset_ne _ _ _ _ hk]
    exact hbase
  · rw [addFilePhase_of_isSome st d (by simp [h])]
    exact optRel_refl sameButDups sameButDups_refl _

theorem addCpPhase_files (st : ICheckpointStore) (cp : ICheckpoint) :
    (addCpPhase st cp).files = st.files := rfl

theorem addParentPhase_checkpoints (st : ICheckpointStore) (cp : ICheckpoint) :
    (addParentPhase st cp).checkpoints = st.checkpoints := by
  rcases h : alookup st.files.byId cp.parent with _ | f
  · simp [addParentPhase, h]
  · simp [addParentPhase, h, setFileById_checkpoints]

theorem addStore_checkpoints_allIds (st : ICheckpointStore) (d x n : String) (t : Nat) :
    (addStore st d x n t).checkpoints.allIds = st.checkpoints.allIds ++ [toString t] := by
  rw [addStore, addParentPhase_checkpoints]
  show ((addFilePhase st d).checkpoints.allIds ++ [(addCp d x n t).id]) = _
  rw [show (addFilePhase st d).checkpoints = st.checkpoints from addFilePhase_checkpoints st d]
  rfl

theorem addStore_cpById_self (st : ICheckpointStore) (d x n : String) (t : Nat) :
    alookup (addStore st d x n t).checkpoints.byId (toString t) = some (addCp d x n t) := by
  rw [addStore, addParentPhase_checkpoints]
  show alookup (aset (addFilePhase st d).checkpoints.byId (addCp d x n t).id (addCp d x n t))
    (toString t) = _
  rw [show (addCp d x n t).id = toString t from rfl, alookup_aset_self]

theorem addStore_lookup_self (st : ICheckpointStore) (d x n : String) (t : Nat) :
    ∃ f, alookup (addStore st d x n t).files.byId d = some f ∧
      toString t ∈ f.checkpointIds := by
  obtain ⟨g, hg⟩ := addFilePhase_lookup_self st d
  have hg2 : alookup (addCpPhase (addFilePhase st d) (addCp d x n t)).files.byId d = some g := by
    rw [addCpPhase_files]
    exact hg
  refine ⟨{ g with checkpointIds := g.checkpointIds ++ [toString t] }, ?_, by simp⟩
  rw [addStore, addParentPhase]
  rw [show (addCp d x n t).parent = d from rfl, hg2]
  show alookup (aset (addCpPhase (addFilePhase st d) (addCp d x n t)).files.byId d
    { g with checkpointIds := g.checkpointIds ++ [(addCp d x n t).id] }) d = _
  rw [alookup_aset_self]
  rfl

theorem addStore_lookup_other (st : ICheckpointStore) (d x n : String) (t : Nat)
    (k : String) (hk : k ≠ d) :
    optRel sameButDups (alookup st.files.byId k)
      (alookup (addStore st d x n t).files.byId k) := by
  have h1 := addFilePhase_lookup_other st d k hk
  rw [addStore]
  rcases h2 : alookup (addCpPhase (addFilePhase st d) (addCp d x n t)).files.byId
      (addCp d x n t).parent with _ | f
  · rw [addParentPhase, h2]
    rw [show (addCpPhase (addFilePhase st d) (addCp d x n t)).files = (addFilePhase st d).files
      from rfl]
    exact h1
  · rw [addParentPhase, h2]
    show optRel sameButDups (alookup st.files.byId k)
      (alookup (aset (addCpPhase (addFilePhase st d) (addCp d x n t)).files.byId
        (addCp d x n t).parent
        { f with checkpointIds := f.checkpointIds ++ [(addCp d x n t).id] }) k)
    rw [show (addCp d x n t).parent = d from rfl, alookup_aset_ne _ _ _ _ hk]
    rw [show (addCpPhase (addFilePhase st d) (addCp d x n t)).files = (addFilePhase st d).files
      from rfl]
    exact h1

theorem deleteCheckpoint_snd (st : ICheckpointStore) (id : String) :
    (deleteCheckpoint st id).2 = getCheckpoint st id := by
  rcases h : getCheckpoint st id with _ | cp
  · simp [deleteCheckpoint, h]
  · simp only [deleteCheckpoint, h]
    split
    · rfl
    · split <;> first
      | rfl
      | (split <;> rfl)

/-- Claim C10: checkpoint ids are derived solely from the timestamp and live
in one store-wide map: two `add` calls with equal timestamps against two
different files leave the second checkpoint as the only surviving `byId`
entry, push the id onto `checkpoints.allIds` twice (so `allIds` holds a
duplicate), and leave both files' `checkpointIds` referencing that same id. -/
theorem equal_timestamp_adds_collide (st : ICheckpointStore) (d1 d2 x1 x2 n1 n2 : String)
    (t : Nat) (hne : d1 ≠ d2) :
    alookup ((add (add st d1 x1 n1 t).store d2 x2 n2 t).store).checkpoints.byId (toString t)
        = some (addCp d2 x2 n2 t) ∧
    ((add (add st d1 x1 n1 t).store d2 x2 n2 t).store).checkpoints.allIds
        = st.checkpoints.allIds ++ [toString t, toString t] ∧
    ¬ ((add (add st d1 x1 n1 t).store d2 x2 n2 t).store).checkpoints.allIds.Nodup ∧
    (∃ f1, alookup ((add (add st d1 x1 n1 t).store d2 x2 n2 t).store).files.byId d1 = some f1 ∧
      toString t ∈ f1.checkpointIds) ∧
    (∃ f2, alookup ((add (add st d1 x1 n1 t).store d2 x2 n2 t).store).files.byId d2 = some f2 ∧
      toString t ∈ f2.checkpointIds) := by
  rw [add_store, add_store]
  have hallIds : (addStore (addStore st d1 x1 n1 t) d2 x2 n2 t).checkpoints.allIds
      = st.checkpoints.allIds ++ [toString t, toString t] := by
    rw [addStore_checkpoints_allIds, addStore_checkpoints_allIds, List.append_assoc]
    rfl
  refine ⟨addStore_cpById_self _ _ _ _ _, hallIds, ?_, ?_, ?_⟩
  · rw [hallIds]
    intro hnd
    have h2 : (List.cons (toString t) [toString t]).Nodup :=
      List.Nodup.sublist (List.sublist_append_right st.checkpoints.allIds _) hnd
    simp at h2
  · obtain ⟨f1, hf1, hmem⟩ := addStore_lookup_self st d1 x1 n1 t
    have h2 := addStore_lookup_other (addStore st d1 x1 n1 t) d2 x2 n2 t d1 hne
    rw [hf1] at h2
    rcases hres : alookup (addStore (addStore st d1 x1 n1 t) d2 x2 n2 t).files.byId d1
        with _ | f1'
    · rw [hres] at h2
      exact (h2 : False).elim
    · rw [hres] at h2
      have h3 : sameButDups f1 f1' := h2
      exact ⟨f1', rfl, by rw [h3.2.2.2.1]; exact hmem⟩
  · obtain ⟨f2, hf2, hmem⟩ := addStore_lookup_self (addStore st d1 x1 n1 t) d2 x2 n2 t
    exact ⟨f2, hf2, hmem⟩

/-- Witness for `equal_timestamp_adds_collide` at two concrete files and
timestamp 1000. -/
theorem equal_timestamp_adds_collide_witness :
    ("file:///x/a.txt" : String) ≠ "file:///y/a.txt" ∧
    alookup ((add (add createEmptyStore "file:///x/a.txt" "t1" "v1" 1000).store
        "file:///y/a.txt" "t2" "v2" 1000).store).checkpoints.byId "1000"
      = some (addCp "file:///y/a.txt" "t2" "v2" 1000) :=
  ⟨by decide,
   (equal_timestamp_adds_collide createEmptyStore "file:///x/a.txt" "file:///y/a.txt"
      "t1" "t2" "v1" "v2" 1000 (by decide)).1⟩

/-- Claim C3 (counterexample): `renameCheckpoint` on an unknown id does NOT
fail silently — the property assignment on the `undefined` lookup result
throws a `TypeError`, so an exception does reach the caller. -/
theorem renameCheckpoint_unknown_not_silent_cex :
    (renameCheckpoint createEmptyStore "missing" "newname").exn = true := rfl

/-- Claim C3 (amended): for every store and unknown checkpoint id,
`renameCheckpoint` logs and then throws a `TypeError`; it leaves the store
unchanged, fires no notification and persists nothing — but it does raise the
exception to the caller (the source has no not-found guard). -/
theorem renameCheckpoint_unknown_throws (st : ICheckpointStore) (id newName : String)
    (h : alookup st.checkpoints.byId id = none) :
    renameCheckpoint st id newName =
      { store := st, notifs := [], persists := [], exn := true } := by
  simp [renameCheckpoint, getCheckpoint, h]

/-- Witness for `renameCheckpoint_unknown_throws` on the empty store. -/
theorem renameCheckpoint_unknown_throws_witness :
    renameCheckpoint createEmptyStore "missing" "n" =
      { store := createEmptyStore, notifs := [], persists := [], exn := true } :=
  renameCheckpoint_unknown_throws createEmptyStore "missing" "n" rfl

/-- Claim C5 (counterexample): the "removed-all" notification carries the NEW
empty store (`clearAll` returns `this.checkpointStore` after reassigning it),
not the prior snapshot: the prior store here has one checkpoint id while the
carried store has none. -/
theorem remove_all_notifies_new_store_cex :
    (remove (add createEmptyStore "file:///a/b.txt" "txt" "v1" 1000).store none).notifs
        = [Notif.removed (Item.store createEmptyStore)] ∧
    (add createEmptyStore "file:///a/b.txt" "txt" "v1" 1000).store.checkpoints.allIds
        = ["1000"] ∧
    createEmptyStore.checkpoints.allIds = [] := ⟨rfl, rfl, rfl⟩

/-- Claim C5 (amended): `remove()` with no argument replaces the store by a
fresh empty store — both id-indexed collections cleared and `version` set
to 1 (hence unchanged for any engine store, whose version is always 1) — and
the "removed-all" notification carries that NEW empty store, not the prior
snapshot.  The empty store is persisted twice (once inside `clearAll`, once
at the end of `remove`). -/
theorem remove_all_replaces_store (st : ICheckpointStore) :
    remove st none =
      { store := createEmptyStore
        notifs := [Notif.removed (Item.store createEmptyStore)]
        persists := [createEmptyStore, createEmptyStore], exn := false } := rfl

/-- Claim C6 (code bug): the disambiguating `extraName` is NEVER truncated,
because `maxLengthFileName: 15` is a bare type annotation (runtime value
`undefined`) and `length > undefined` is `false` in JS.  Adding a file whose
directory part has 32 characters stores the full 32-character fragment with
no ellipsis marker, where the spec promises a ≤15-character truncation. -/
theorem extraName_never_truncated :
    Option.map IFile.extraName
        (getFile (add createEmptyStore "file:///very/long/directory/path/name.txt"
            "txt" "v1" 1000).store
          "file:///very/long/directory/path/name.txt")
      = some "file:///very/long/directory/path" ∧
    15 < ("file:///very/long/directory/path" : String).length := by
  constructor
  · rfl
  · decide

/-- Claim C8: loading a persisted store whose `version` is already 1 skips
the migration entirely: no id is rewritten, nothing is persisted, and the
store is returned unchanged. -/
theorem migration_noop_on_version_one (st : ICheckpointStore) (h : st.version = 1) :
    getWorkspaceSate (some st) = (st, []) := by
  simp [getWorkspaceSate, h]

/-- Witness for `migration_noop_on_version_one` on the empty store
(`version = 1`). -/
theorem migration_noop_on_version_one_witness :
    getWorkspaceSate (some createEmptyStore) = (createEmptyStore, []) :=
  migration_noop_on_version_one createEmptyStore rfl

/-- Claim C9 (counterexample): when NO context is set yet, assigning a value
of the internal preview scheme is not suppressed — the guard requires a
truthy current context — so the context is stored and a notification fires,
contradicting the claim's unconditional preview-scheme no-op. -/
theorem checkpointContext_preview_fires_cex :
    setCheckpointContext none { scheme := "checkpointsDocumentView", rest := "//preview/a" } =
      (some { scheme := "checkpointsDocumentView", rest := "//preview/a" },
       [Notif.contextChanged { scheme := "checkpointsDocumentView", rest := "//preview/a" }]) ∧
    ({ scheme := "checkpointsDocumentView", rest := "//preview/a" } : JsUri).scheme
      = "checkpointsDocumentView" := ⟨rfl, rfl⟩

/-- Claim C9 (amended): when a current context exists, assigning an equal
string form or a preview-scheme value is a no-op (context kept, nothing
fired), and any other assignment stores the value and fires exactly one
context-changed notification; when no context exists yet, every assignment —
preview scheme included — stores the value and fires exactly once. -/
theorem checkpointContext_setter_cases (cur : Option JsUri) (uri : JsUri) :
    (∀ c, cur = some c →
      (uriToString c = uriToString uri ∨ uri.scheme = "checkpointsDocumentView") →
      setCheckpointContext cur uri = (some c, [])) ∧
    (∀ c, cur = some c →
      ¬(uriToString c = uriToString uri ∨ uri.scheme = "checkpointsDocumentView") →
      setCheckpointContext cur uri = (some uri, [Notif.contextChanged uri])) ∧
    (cur = none → setCheckpointContext cur uri = (some uri, [Notif.contextChanged uri])) := by
  refine ⟨?_, ?_, ?_⟩
  · intro c hc hcond
    subst hc
    simp [setCheckpointContext, hcond]
  · intro c hc hcond
    subst hc
    simp [setCheckpointContext, hcond]
  · intro hc
    subst hc
    rfl

/-- Witness for `checkpointContext_setter_cases`: re-assigning the current
uri is suppressed. -/
theorem checkpointContext_setter_cases_witness :
    setCheckpointContext (some { scheme := "file", rest := "///a/b.txt" })
        { scheme := "file", rest := "///a/b.txt" } =
      (some { scheme := "file", rest := "///a/b.txt" }, []) :=
  (checkpointContext_setter_cases (some { scheme := "file", rest := "///a/b.txt" })
    { scheme := "file", rest := "///a/b.txt" }).1 _ rfl (Or.inl rfl)

/-- Claim C4 (counterexample): a successful `renameCheckpoint` mutates the
store (the checkpoint's display name changes) yet persists nothing — the
source never calls `updateWorkspaceState` from `renameCheckpoint`. -/
theorem rename_mutates_without_persist_cex :
    (renameCheckpoint (add createEmptyStore "file:///a/b.txt" "txt" "v1" 1000).store
        "1000" "renamed").persists = [] ∧
    (renameCheckpoint (add createEmptyStore "file:///a/b.txt" "txt" "v1" 1000).store
        "1000" "renamed").store ≠
      (add createEmptyStore "file:///a/b.txt" "txt" "v1" 1000).store := by
  constructor
  · rfl
  · decide

/-- Claim C4 (amended): only `add` and a successful `remove` write the store
back to the persisted slot; a `remove` whose id resolves to nothing persists
nothing, a `remove` whose id resolves to a file or checkpoint persists the
resulting store exactly once; `renameCheckpoint`, `selectCheckpoint` and
`clearSelectionFromFile` never persist. -/
theorem persist_only_add_and_remove :
    (∀ st d x n t, (add st d x n t).persists = [(add st d x n t).store]) ∧
    (∀ st : ICheckpointStore, (remove st none).persists
        = [createEmptyStore, createEmptyStore]) ∧
    (∀ st id, (getFile st id = none → getCheckpoint st id = none →
        (remove st (some id)).persists = []) ∧
      ((getFile st id).isSome ∨ (getCheckpoint st id).isSome →
        (remove st (some id)).persists = [(remove st (some id)).store])) ∧
    (∀ st id newName, (renameCheckpoint st id newName).persists = []) ∧
    (∀ st cid, (selectCheckpoint st cid).persists = []) ∧
    (∀ st fid, (clearSelectionFromFile st fid).persists = []) := by
  refine ⟨fun st d x n t => rfl, fun st => rfl, ?_, ?_, ?_, ?_⟩
  · intro st id
    constructor
    · intro hf hc
      simp [remove, hf, hc]
    · intro hres
      rcases hf : getFile st id with _ | f
      · rcases hc : getCheckpoint st id with _ | cp
        · rw [hf] at hres
          rw [hc] at hres
          rcases hres with h | h <;> exact absurd h (by simp)
        · have hd := deleteCheckpoint_snd st id
          rw [hc] at hd
          simp [remove, hf, hc, hd]
      · simp [remove, hf, clearFile]
  · intro st id newName
    rcases hc : getCheckpoint st id with _ | cp <;> simp [renameCheckpoint, hc]
  · intro st cid
    rcases hc : getCheckpoint st cid with _ | cp
    · simp [selectCheckpoint, hc]
    · rcases hp : alookup st.files.byId cp.parent with _ | f <;>
        simp [selectCheckpoint, hc, hp]
  · intro st fid
    rcases hf : getFile st fid with _ | f <;> simp [clearSelectionFromFile, hf]

/-- Witness for `persist_only_add_and_remove`: on a one-checkpoint store, a
`remove` of an unknown id persists nothing, while a `remove` of checkpoint
`"1000"` persists the resulting store exactly once. -/
theorem persist_only_add_and_remove_witness :
    (remove (add createEmptyStore "file:///a/b.txt" "txt" "v1" 1000).store
        (some "zzz")).persists = [] ∧
    (remove (add createEmptyStore "file:///a/b.txt" "txt" "v1" 1000).store
        (some "1000")).persists
      = [(remove (add createEmptyStore "file:///a/b.txt" "txt" "v1" 1000).store
          (some "1000")).store] :=
  ⟨(persist_only_add_and_remove.2.2.1
      (add createEmptyStore "file:///a/b.txt" "txt" "v1" 1000).store "zzz").1
      (by decide) (by decide),
   (persist_only_add_and_remove.2.2.1
      (add createEmptyStore "file:///a/b.txt" "txt" "v1" 1000).store "1000").2
      (by decide)⟩

theorem hrdGo_checkpoints (l : List String) (st : ICheckpointStore) (rid : String) :
    (handleRemovedDuplicatesGo l st rid).checkpoints = st.checkpoints := by
  induction l generalizing st with
  | nil => rfl
  | cons fid rest ih =>
    rcases h : alookup st.files.byId fid with _ | df
    · simpa [handleRemovedDuplicatesGo, h] using ih st
    · simpa [handleRemovedDuplicatesGo, h, setFileById] using
        ih (setFileById st fid
          { df with fileNameDuplicates := findIndexSplice1 df.fileNameDuplicates rid })

theorem hrdGo_files_allIds (l : List String) (st : ICheckpointStore) (rid : String) :
    (handleRemovedDuplicatesGo l st rid).files.allIds = st.files.allIds := by
  induction l generalizing st with
  | nil => rfl
  | cons fid rest ih =>
    rcases h : alookup st.files.byId fid with _ | df
    · simpa [handleRemovedDuplicatesGo, h] using ih st
    · simpa [handleRemovedDuplicatesGo, h, setFileById] using
        ih (setFileById st fid
          { df with fileNameDuplicates := findIndexSplice1 df.fileNameDuplicates rid })

theorem hrdGo_version (l : List String) (st : ICheckpointStore) (rid : String) :
    (handleRemovedDuplicatesGo l st rid).version = st.version := by
  induction l generalizing st with
  | nil => rfl
  | cons fid rest ih =>
    rcases h : alookup st.files.byId fid with _ | df
    · simpa [handleRemovedDuplicatesGo, h] using ih st
    · simpa [handleRemovedDuplicatesGo, h, setFileById] using
        ih (setFileById st fid
          { df with fileNameDuplicates := findIndexSplice1 df.fileNameDuplicates rid })

theorem hrdGo_lookup (l : List String) (st : ICheckpointStore) (rid : String) (k : String) :
    optRel sameButDups (alookup st.files.byId k)
      (alookup (handleRemovedDuplicatesGo l st rid).files.byId k) := by
  induction l generalizing st with
  | nil => exact optRel_refl sameButDups sameButDups_refl _
  | cons fid rest ih =>
    rcases h : alookup st.files.byId fid with _ | df
    · simpa [handleRemovedDuplicatesGo, h] using ih st
    · have step : optRel sameButDups (alookup st.files.byId k)
          (alookup (setFileById st fid
            { df with fileNameDuplicates := findIndexSplice1 df.fileNameDuplicates rid }).files.byId
            k) := by
        by_cases hk : k = fid
        · subst hk
          rw [show (setFileById st k
                { df with fileNameDuplicates := findIndexSplice1 df.fileNameDuplicates rid }).files.byId
              = aset st.files.byId k
                { df with fileNameDuplicates := findIndexSplice1 df.fileNameDuplicates rid } from rfl,
            alookup_aset_self, h]
          exact ⟨rfl, rfl, rfl, rfl, rfl⟩
        · rw [show (setFileById st fid
                { df with fileNameDuplicates := findIndexSplice1 df.fileNameDuplicates rid }).files.byId
              = aset st.files.byId fid
                { df with fileNameDuplicates := findIndexSplice1 df.fileNameDuplicates rid } from rfl,
            alookup_aset_ne _ _ _ _ hk]
          exact optRel_refl sameButDups sameButDups_refl _
      exact @optRel_trans IFile sameButDups (fun _ _ _ ha hb => sameButDups_trans ha hb) _ _ _ step
        (by simpa [handleRemovedDuplicatesGo, h] using
          (ih (setFileById st fid
            { df with fileNameDuplicates := findIndexSplice1 df.fileNameDuplicates rid })))

theorem remove_store_deleteCheckpoint (st : ICheckpointStore) (id : String)
    (hnf : getFile st id = none) (hcp : (getCheckpoint st id).isSome) :
    (remove st (some id)).store = (deleteCheckpoint st id).1 := by
  rcases Option.isSome_iff_exists.mp hcp with ⟨cp, hc⟩
  have hd := deleteCheckpoint_snd st id
  rw [hc] at hd
  simp [remove, hnf, hc, hd]

theorem handleRemovedDuplicates_checkpoints (st : ICheckpointStore) (rf : IFile) :
    (handleRemovedDuplicates st rf).checkpoints = st.checkpoints :=
  hrdGo_checkpoints _ _ _

theorem handleRemovedDuplicates_files_allIds (st : ICheckpointStore) (rf : IFile) :
    (handleRemovedDuplicates st rf).files.allIds = st.files.allIds :=
  hrdGo_files_allIds _ _ _

theorem handleRemovedDuplicates_lookup_none (st : ICheckpointStore) (rf : IFile) (k : String)
    (h : alookup st.files.byId k = none) :
    alookup (handleRemovedDuplicates st rf).files.byId k = none := by
  have hopt := hrdGo_lookup rf.fileNameDuplicates st rf.id k
  rw [h] at hopt
  rcases hres : alookup (handleRemovedDuplicatesGo rf.fileNameDuplicates st rf.id).files.byId k
      with _ | g
  · exact hres
  · rw [hres] at hopt
    exact (hopt : False).elim

/-- Claim C2: removing (by id) a checkpoint that is the only element of its
owning file's `checkpointIds` deletes both the checkpoint and the file — both
`byId` entries become absent and both ids leave their `allIds` sequences —
while removing a checkpoint that is not the only one leaves the file present
with `checkpointIds` reduced by exactly that id (one element shorter).  The
store is assumed well-formed, and the id must not also name a file (in the
running system file ids are URI strings containing a colon while checkpoint
ids are decimal timestamp strings, so the `remove` dispatch cannot confuse
them). -/
theorem remove_checkpoint_cases (st : ICheckpointStore) (id : String) (cp : ICheckpoint)
    (f : IFile) (hwf : StoreWF st)
    (hcp : alookup st.checkpoints.byId id = some cp)
    (hnf : alookup st.files.byId id = none)
    (hf : alookup st.files.byId cp.parent = some f) :
    alookup (remove st (some id)).store.checkpoints.byId id = none ∧
    id ∉ (remove st (some id)).store.checkpoints.allIds ∧
    (f.checkpointIds = [id] →
      alookup (remove st (some id)).store.files.byId cp.parent = none ∧
      cp.parent ∉ (remove st (some id)).store.files.allIds) ∧
    (f.checkpointIds ≠ [id] →
      ∃ f', alookup (remove st (some id)).store.files.byId cp.parent = some f' ∧
        f'.checkpointIds = f.checkpointIds.erase id ∧
        f'.checkpointIds.length + 1 = f.checkpointIds.length) := by
  obtain ⟨fnodup, fkeys, cnodup, ckeys, fent, cent⟩ := hwf
  have hmemKV : (id, cp) ∈ st.checkpoints.byId := alookup_mem _ _ _ hcp
  obtain ⟨hcpid0, hparent0⟩ := cent (id, cp) hmemKV
  have hcpid : cp.id = id := hcpid0
  have hparent : Option.map (fun g => g.checkpointIds.contains id)
      (alookup st.files.byId cp.parent) = some true := hparent0
  rw [hf] at hparent
  have hidin : id ∈ f.checkpointIds := by
    have h2 : f.checkpointIds.contains id = true := by
      simpa using hparent
    simpa using h2
  have hfKV : (cp.parent, f) ∈ st.files.byId := alookup_mem _ _ _ hf
  obtain ⟨hfid0, hfnodup0, -⟩ := fent (cp.parent, f) hfKV
  have hfid : f.id = cp.parent := hfid0
  have hfnodup : f.checkpointIds.Nodup := hfnodup0
  have hidmem : id ∈ st.checkpoints.allIds := by
    rw [← ckeys]
    exact (alookup_isSome_iff _ _).mp (by simp [hcp])
  have hpmem : cp.parent ∈ st.files.allIds := by
    rw [← fkeys]
    exact (alookup_isSome_iff _ _).mp (by simp [hf])
  have hstore : (remove st (some id)).store = (deleteCheckpoint st id).1 :=
    remove_store_deleteCheckpoint st id hnf (by simp [getCheckpoint, hcp])
  have hf1 : getFile { st with checkpoints :=
      { byId := adel st.checkpoints.byId id
        allIds := findIndexSplice1 st.checkpoints.allIds id } } cp.parent = some f := hf
  have hifcps : (if f.selection = id then { f with selection := "" } else f).checkpointIds
      = f.checkpointIds := by split <;> rfl
  have hifid : (if f.selection = id then { f with selection := "" } else f).id = f.id := by
    split <;> rfl
  have hifname : (if f.selection = id then { f with selection := "" } else f).name = f.name := by
    split <;> rfl
  have hifextra : (if f.selection = id then { f with selection := "" } else f).extraName
      = f.extraName := by split <;> rfl
  have hifdups : (if f.selection = id then { f with selection := "" } else f).fileNameDuplicates
      = f.fileNameDuplicates := by split <;> rfl
  have hifsel : (if f.selection = id then { f with selection := "" } else f).selection
      = if f.selection = id then "" else f.selection := by split <;> rfl
  rw [hstore]
  simp only [deleteCheckpoint, getCheckpoint, hcp, hf1, hifcps, hifid, hifname, hifextra,
    hifdups, hifsel, hcpid]
  by_cases hlast : f.checkpointIds = [id]
  · have hfilter : f.checkpointIds.filter (fun i => i != id) = [] := by
      rw [hlast]
      simp
    rw [hfilter]
    simp only [List.length_nil, reduceIte]
    refine ⟨?_, ?_, ?_, ?_⟩
    · rw [handleRemovedDuplicates_checkpoints]
      show alookup (adel st.checkpoints.byId id) id = none
      exact alookup_adel_self _ _
    · rw [handleRemovedDuplicates_checkpoints]
      show id ∉ findIndexSplice1 st.checkpoints.allIds id
      rw [findIndexSplice1_of_mem _ _ hidmem]
      exact cnodup.not_mem_erase
    · intro _
      constructor
      · apply handleRemovedDuplicates_lookup_none
        show alookup (adel (aset st.files.byId cp.parent _) f.id) cp.parent = none
        rw [hfid]
        exact alookup_adel_self _ _
      · rw [handleRemovedDuplicates_files_allIds]
        show cp.parent ∉ findIndexSplice1 st.files.allIds f.id
        rw [hfid, findIndexSplice1_of_mem _ _ hpmem]
        exact fnodup.not_mem_erase
    · intro hne
      exact absurd hlast hne
  · have herase : f.checkpointIds.filter (fun i => i != id) = f.checkpointIds.erase id :=
      (hfnodup.erase_eq_filter id).symm
    have hlenpos : 0 < f.checkpointIds.length := List.length_pos_of_mem hidin
    have hlenne : ¬ (f.checkpointIds.filter (fun i => i != id)).length = 0 := by
      rw [herase, List.length_erase_of_mem hidin]
      intro h0
      have hone : f.checkpointIds.length = 1 := by omega
      obtain ⟨a, ha⟩ := List.length_eq_one.mp hone
      rw [ha] at hidin
      simp at hidin
      rw [ha, hidin] at hlast
      exact hlast rfl
    rw [if_neg hlenne]
    refine ⟨?_, ?_, ?_, ?_⟩
    · show alookup (adel st.checkpoints.byId id) id = none
      exact alookup_adel_self _ _
    · show id ∉ findIndexSplice1 st.checkpoints.allIds id
      rw [findIndexSplice1_of_mem _ _ hidmem]
      exact cnodup.not_mem_erase
    · intro h'
      exact absurd h' hlast
    · intro _
      refine ⟨{ id := f.id, name := f.name, extraName := f.extraName
                fileNameDuplicates := f.fileNameDuplicates
                checkpointIds := List.filter (fun i => i != id) f.checkpointIds
                selection := if f.selection = id then "" else f.selection }, ?_, ?_, ?_⟩
      · show alookup (aset st.files.byId cp.parent _) cp.parent = some _
        exact alookup_aset_self _ _ _
      · show f.checkpointIds.filter (fun i => i != id) = f.checkpointIds.erase id
        exact herase
      · show (f.checkpointIds.filter (fun i => i != id)).length + 1 = f.checkpointIds.length
        rw [herase, List.length_erase_of_mem hidin]
        omega

/-- Witness for `remove_checkpoint_cases`: in a file with checkpoints
`["1000", "2000"]`, removing `"1000"` (not the only one) keeps the file and
shrinks `checkpointIds` by exactly that id. -/
theorem remove_checkpoint_cases_witness :
    ∃ f', alookup (remove
        (add (add createEmptyStore "file:///a/b.txt" "t1" "v1" 1000).store
          "file:///a/b.txt" "t2" "v2" 2000).store
        (some "1000")).store.files.byId "file:///a/b.txt" = some f' ∧
      f'.checkpointIds = (["1000", "2000"] : List String).erase "1000" ∧
      f'.checkpointIds.length + 1 = (["1000", "2000"] : List String).length :=
  (remove_checkpoint_cases
    (add (add createEmptyStore "file:///a/b.txt" "t1" "v1" 1000).store
      "file:///a/b.txt" "t2" "v2" 2000).store
    "1000"
    { id := "1000", parent := "file:///a/b.txt", timestamp := 1000, name := "v1", text := "t1" }
    { id := "file:///a/b.txt", name := "b.txt", extraName := "file:///a"
      fileNameDuplicates := [], checkpointIds := ["1000", "2000"], selection := "" }
    (by decide) (by decide) (by decide) (by decide)).2.2.2 (by decide)

theorem mem_keysOf_of_alookup {α : Type} (m : List (String × α)) (k : String) (v : α)
    (h : alookup m k = some v) : k ∈ keysOf m :=
  (alookup_isSome_iff m k).mp (by simp [h])

theorem alookup_of_mem_keysNodup {α : Type} (m : List (String × α)) (k : String) (v : α)
    (hnd : (keysOf m).Nodup) (h : (k, v) ∈ m) : alookup m k = some v := by
  induction m with
  | nil => simp at h
  | cons p t ih =>
    obtain ⟨k0, v0⟩ := p
    rcases List.mem_cons.mp h with h1 | h1
    · rw [Prod.mk.injEq] at h1
      simp [alookup, h1.1, h1.2]
    · have hk : k ∈ keysOf t := by
        rcases List.mem_map.mpr ⟨(k, v), h1, rfl⟩ with hh
        exact hh
      have hne : k0 ≠ k := by
        intro he
        subst he
        exact ((List.nodup_cons.mp (by simpa [keysOf] using hnd)).1) hk
      simp [alookup, hne]
      exact ih (List.nodup_cons.mp (by simpa [keysOf] using hnd)).2 h1

theorem hndGo_keys (l : List String) (st : ICheckpointStore) (nf : IFile) :
    keysOf (handleNewDuplicatesGo l st nf).1.files.byId = keysOf st.files.byId := by
  induction l generalizing st nf with
  | nil => rfl
  | cons fid rest ih =>
    rcases h : alookup st.files.byId fid with _ | f
    · simpa [handleNewDuplicatesGo, h] using ih st nf
    · by_cases hn : nf.name = f.name
      · have hmem : fid ∈ keysOf st.files.byId := mem_keysOf_of_alookup _ _ _ h
        have hstep : keysOf (setFileById st fid
            { f with fileNameDuplicates := f.fileNameDuplicates ++ [nf.id] }).files.byId
            = keysOf st.files.byId := keysOf_aset_of_mem _ _ _ hmem
        rw [show (handleNewDuplicatesGo (fid :: rest) st nf)
            = handleNewDuplicatesGo rest
              (setFileById st fid { f with fileNameDuplicates := f.fileNameDuplicates ++ [nf.id] })
              { nf with fileNameDuplicates := nf.fileNameDuplicates ++ [f.id] } from by
          simp [handleNewDuplicatesGo, h, hn]]
        rw [ih, hstep]
      · simpa [handleNewDuplicatesGo, h, hn] using ih st nf

theorem addFilePhase_none_spec (st : ICheckpointStore) (d : String)
    (h : alookup st.files.byId d = none) :
    (addFilePhase st d).checkpoints = st.checkpoints ∧
    (addFilePhase st d).files.allIds = st.files.allIds ++ [d] ∧
    keysOf (addFilePhase st d).files.byId = keysOf st.files.byId ++ [d] ∧
    (∃ nf, alookup (addFilePhase st d).files.byId d = some nf ∧ nf.id = d ∧
      nf.checkpointIds = []) ∧
    (∀ k, k ≠ d → optRel sameButDups (alookup st.files.byId k)
      (alookup (addFilePhase st d).files.byId k)) := by
  have hid : (handleNewDuplicates st (addNewFile d)).2.id = d := by
    simpa [addNewFile] using handleNewDuplicates_snd_id st (addNewFile d)
  have hkeys : keysOf (handleNewDuplicates st (addNewFile d)).1.files.byId
      = keysOf st.files.byId := hndGo_keys _ _ _
  have hnotmem : d ∉ keysOf (handleNewDuplicates st (addNewFile d)).1.files.byId := by
    rw [hkeys]
    exact (alookup_eq_none_iff _ _).mp h
  refine ⟨?_, ?_, ?_, ?_, ?_⟩
  · rw [addFilePhase_of_none st d h]
    exact hndGo_checkpoints _ _ _
  · rw [addFilePhase_of_none st d h]
    show (handleNewDuplicates st (addNewFile d)).1.files.allIds
      ++ [(handleNewDuplicates st (addNewFile d)).2.id] = _
    rw [hid]
    rw [show (handleNewDuplicates st (addNewFile d)).1.files.allIds = st.files.allIds from
      hndGo_files_allIds _ _ _]
  · rw [addFilePhase_of_none st d h]
    show keysOf (aset (handleNewDuplicates st (addNewFile d)).1.files.byId
      (handleNewDuplicates st (addNewFile d)).2.id (handleNewDuplicates st (addNewFile d)).2) = _
    rw [hid]
    rw [keysOf_aset_of_not_mem _ _ _ hnotmem, hkeys]
  · obtain ⟨nf, hnf, hsame⟩ := addFilePhase_lookup_self_of_none st d h
    exact ⟨nf, hnf, by rw [hsame.1]; rfl, by rw [hsame.2.2.2.1]; rfl⟩
  · intro k hk
    exact addFilePhase_lookup_other st d k hk

theorem addParentPhase_of_some (st : ICheckpointStore) (cp : ICheckpoint) (g : IFile)
    (h : alookup st.files.byId cp.parent = some g) :
    addParentPhase st cp
      = setFileById st cp.parent { g with checkpointIds := g.checkpointIds ++ [cp.id] } := by
  simp [addParentPhase, h]

theorem addInv_filePhase (st : ICheckpointStore) (d : String) (hInv : AddInv st) :
    AddInv (addFilePhase st d) := by
  rcases hd : alookup st.files.byId d with _ | f0
  · obtain ⟨hcps, hallIds, hkeys, ⟨nf, hnf, hnfid, hnfcps⟩, hother⟩ :=
      addFilePhase_none_spec st d hd
    have hdnotin : d ∉ st.files.allIds := by
      rw [← hInv.fkeys]
      exact (alookup_eq_none_iff _ _).mp hd
    refine ⟨?_, ?_, ?_, ?_, ?_, ?_⟩
    · rw [hallIds]
      rw [List.nodup_append]
      refine ⟨hInv.fnodup, List.nodup_singleton d, ?_⟩
      intro a ha hb
      simp at hb
      subst hb
      exact hdnotin ha
    · rw [hkeys, hallIds, hInv.fkeys]
    · rw [hcps]
      exact hInv.cnodup
    · rw [hcps]
      exact hInv.ckeys
    · intro fid g hg
      by_cases hfid : fid = d
      · subst hfid
        rw [hnf] at hg
        obtain rfl := Option.some.inj hg
        refine ⟨hnfid, ?_⟩
        rw [hnfcps]
        intro c hc
        simp at hc
      · have hrel := hother fid hfid
        rcases hst : alookup st.files.byId fid with _ | g0
        · rw [hst, hg] at hrel
          exact (hrel : False).elim
        · rw [hst, hg] at hrel
          have hs : sameButDups g0 g := hrel
          obtain ⟨hok1, hok2⟩ := hInv.fileOk fid g0 hst
          refine ⟨by rw [hs.1, hok1], ?_⟩
          intro c hc
          rw [hs.2.2.2.1] at hc
          obtain ⟨cp, hcp1, hcp2⟩ := hok2 c hc
          refine ⟨cp, ?_, hcp2⟩
          rw [show (addFilePhase st d).checkpoints = st.checkpoints from hcps]
          exact hcp1
    · intro c cp hc
      rw [show (addFilePhase st d).checkpoints = st.checkpoints from hcps] at hc
      obtain ⟨hok1, g0, hg0, hmem⟩ := hInv.cpOk c cp hc
      refine ⟨hok1, ?_⟩
      by_cases hp : cp.parent = d
      · rw [hp, hd] at hg0
        exact Option.noConfusion hg0
      · have hrel := hother cp.parent hp
        rw [hg0] at hrel
        rcases hres : alookup (addFilePhase st d).files.byId cp.parent with _ | g1
        · rw [hres] at hrel
          exact (hrel : False).elim
        · rw [hres] at hrel
          have hs : sameButDups g0 g1 := hrel
          refine ⟨g1, rfl, ?_⟩
          rw [hs.2.2.2.1]
          exact hmem
  · rw [addFilePhase_of_isSome st d (by simp [hd])]
    exact hInv

theorem addInv_cpParent (st1 : ICheckpointStore) (d x n : String) (t : Nat) (g : IFile)
    (hInv : AddInv st1) (hg : alookup st1.files.byId d = some g) (hgid : g.id = d)
    (hfresh : toString t ∉ st1.checkpoints.allIds) :
    AddInv (addParentPhase (addCpPhase st1 (addCp d x n t)) (addCp d x n t)) := by
  have hg2 : alookup (addCpPhase st1 (addCp d x n t)).files.byId (addCp d x n t).parent
      = some g := hg
  rw [addParentPhase_of_some _ _ g hg2]
  have hfreshKeys : toString t ∉ keysOf st1.checkpoints.byId := by
    rw [hInv.ckeys]
    exact hfresh
  have hdmemKeys : d ∈ keysOf st1.files.byId := mem_keysOf_of_alookup _ _ _ hg
  have hcidNotOld : ∀ c cp', alookup st1.checkpoints.byId c = some cp' → c ≠ toString t := by
    intro c cp' hc he
    subst he
    exact hfreshKeys (mem_keysOf_of_alookup _ _ _ hc)
  refine ⟨?_, ?_, ?_, ?_, ?_, ?_⟩
  · show st1.files.allIds.Nodup
    exact hInv.fnodup
  · show keysOf (aset st1.files.byId (addCp d x n t).parent
      { g with checkpointIds := g.checkpointIds ++ [(addCp d x n t).id] }) = st1.files.allIds
    have : keysOf (aset st1.files.byId d
        { g with checkpointIds := g.checkpointIds ++ [toString t] }) = keysOf st1.files.byId :=
      keysOf_aset_of_mem _ _ _ hdmemKeys
    rw [show (addCp d x n t).parent = d from rfl, show (addCp d x n t).id = toString t from rfl,
      this, hInv.fkeys]
  · show (st1.checkpoints.allIds ++ [(addCp d x n t).id]).Nodup
    rw [show (addCp d x n t).id = toString t from rfl, List.nodup_append]
    refine ⟨hInv.cnodup, List.nodup_singleton _, ?_⟩
    intro a ha hb
    simp at hb
    subst hb
    exact hfresh ha
  · show keysOf (aset st1.checkpoints.byId (addCp d x n t).id (addCp d x n t))
      = st1.checkpoints.allIds ++ [(addCp d x n t).id]
    rw [show (addCp d x n t).id = toString t from rfl,
      keysOf_aset_of_not_mem _ _ _ hfreshKeys, hInv.ckeys]
  · intro fid g' hg'
    have hg'' : alookup (aset st1.files.byId d
        { g with checkpointIds := g.checkpointIds ++ [toString t] }) fid = some g' := hg'
    by_cases hfid : fid = d
    · subst fid
      rw [alookup_aset_self] at hg''
      obtain rfl := Option.some.inj hg''
      refine ⟨by show g.id = d; exact hgid, ?_⟩
      intro c hc
      show ∃ cp, alookup (aset st1.checkpoints.byId (toString t) (addCp d x n t)) c = some cp ∧
        cp.parent = d
      rcases (by simpa using hc : c ∈ g.checkpointIds ∨ c = toString t) with hc1 | hc1
      · obtain ⟨-, hall⟩ := hInv.fileOk d g hg
        obtain ⟨cp', hcp', hpar'⟩ := hall c hc1
        have hne : c ≠ toString t := hcidNotOld c cp' hcp'
        refine ⟨cp', ?_, hpar'⟩
        rw [alookup_aset_ne _ _ _ _ hne]
        exact hcp'
      · subst hc1
        exact ⟨addCp d x n t, alookup_aset_self _ _ _, rfl⟩
    · rw [alookup_aset_ne _ _ _ _ hfid] at hg''
      obtain ⟨hok1, hall⟩ := hInv.fileOk fid g' hg''
      refine ⟨hok1, ?_⟩
      intro c hc
      obtain ⟨cp', hcp', hpar'⟩ := hall c hc
      have hne : c ≠ toString t := hcidNotOld c cp' hcp'
      refine ⟨cp', ?_, hpar'⟩
      show alookup (aset st1.checkpoints.byId (toString t) (addCp d x n t)) c = some cp'
      rw [alookup_aset_ne _ _ _ _ hne]
      exact hcp'
  · intro c cp' hc'
    have hc'' : alookup (aset st1.checkpoints.byId (toString t) (addCp d x n t)) c
        = some cp' := hc'
    by_cases hceq : c = toString t
    · subst hceq
      rw [alookup_aset_self] at hc''
      obtain rfl := Option.some.inj hc''
      refine ⟨rfl, ?_⟩
      refine ⟨{ g with checkpointIds := g.checkpointIds ++ [toString t] }, ?_, ?_⟩
      · show alookup (aset st1.files.byId d
          { g with checkpointIds := g.checkpointIds ++ [toString t] }) (addCp d x n t).parent
          = _
        exact alookup_aset_self _ _ _
      · simp
    · rw [alookup_aset_ne _ _ _ _ hceq] at hc''
      obtain ⟨hok1, g0, hg0, hmem⟩ := hInv.cpOk c cp' hc''
      refine ⟨hok1, ?_⟩
      by_cases hp : cp'.parent = d
      · rw [hp] at hg0
        rw [hg0] at hg
        obtain rfl := Option.some.inj hg
        refine ⟨{ g0 with checkpointIds := g0.checkpointIds ++ [toString t] }, ?_, ?_⟩
        · show alookup (aset st1.files.byId d
            { g0 with checkpointIds := g0.checkpointIds ++ [toString t] }) cp'.parent = _
          rw [hp]
          exact alookup_aset_self _ _ _
        · simp
          exact Or.inl hmem
      · refine ⟨g0, ?_, hmem⟩
        show alookup (aset st1.files.byId d
          { g with checkpointIds := g.checkpointIds ++ [toString t] }) cp'.parent = some g0
        rw [alookup_aset_ne _ _ _ _ hp]
        exact hg0

theorem addInv_addStore (st : ICheckpointStore) (d x n : String) (t : Nat)
    (hInv : AddInv st) (hfresh : toString t ∉ st.checkpoints.allIds) :
    AddInv (addStore st d x n t) := by
  have h1 := addInv_filePhase st d hInv
  rcases hd : alookup st.files.byId d with _ | f0
  · obtain ⟨hcps, -, -, ⟨nf, hnf, hnfid, -⟩, -⟩ := addFilePhase_none_spec st d hd
    have hfresh1 : toString t ∉ (addFilePhase st d).checkpoints.allIds := by
      rw [hcps]
      exact hfresh
    exact addInv_cpParent _ d x n t nf h1 hnf hnfid hfresh1
  · have heq := addFilePhase_of_isSome st d (by simp [hd])
    have hgid := (hInv.fileOk d f0 hd).1
    exact addInv_cpParent (addFilePhase st d) d x n t f0 h1 (by rw [heq]; exact hd) hgid
      (by rw [addFilePhase_checkpoints]; exact hfresh)

theorem addInv_foldl (ops : List AddOp) : ∀ st, AddInv st →
    (∀ o ∈ ops, toString o.timestamp ∉ st.checkpoints.allIds) →
    (ops.map (fun o => toString o.timestamp)).Nodup →
    AddInv (ops.foldl applyAddOp st) := by
  induction ops with
  | nil =>
    intro st h _ _
    exact h
  | cons o rest ih =>
    intro st hInv hfr hnd
    rw [List.map_cons] at hnd
    obtain ⟨hhead, htail⟩ := List.nodup_cons.mp hnd
    have hstep : AddInv (applyAddOp st o) :=
      addInv_addStore st o.documentId o.text o.name o.timestamp hInv (hfr o (by simp))
    refine ih (applyAddOp st o) hstep ?_ ?_
    · intro o' ho'
      have hids : (applyAddOp st o).checkpoints.allIds
          = st.checkpoints.allIds ++ [toString o.timestamp] :=
        addStore_checkpoints_allIds st o.documentId o.text o.name o.timestamp
      rw [hids]
      intro hmem
      rcases List.mem_append.mp hmem with hmem | hmem
      · exact hfr o' (by simp [ho']) hmem
      · have heq : toString o'.timestamp = toString o.timestamp := by simpa using hmem
        exact hhead (by rw [← heq]; exact List.mem_map.mpr ⟨o', ho', rfl⟩)
    · exact htail

theorem filter_eq_singleton_of_iff (l : List String) (p : String → Bool) (a : String)
    (hnd : l.Nodup) (ha : a ∈ l) (hiff : ∀ x ∈ l, p x = true ↔ x = a) :
    l.filter p = [a] := by
  induction l with
  | nil => simp at ha
  | cons b t ih =>
    by_cases hb : b = a
    · subst hb
      have hpb : p b = true := (hiff b (by simp)).mpr rfl
      have hnotin : b ∉ t := (List.nodup_cons.mp hnd).1
      have hfilter_t : t.filter p = [] := by
        rw [List.filter_eq_nil_iff]
        intro x hx hpx
        have := (hiff x (by simp [hx])).mp hpx
        subst this
        exact hnotin hx
      simp [List.filter_cons, hpb, hfilter_t]
    · have hpb : p b = false := by
        rcases hpp : p b
        · rfl
        · exact absurd ((hiff b (by simp)).mp hpp) hb
      have ha' : a ∈ t := by
        rcases List.mem_cons.mp ha with h | h
        · exact absurd h.symm hb
        · exact h
      simp only [List.filter_cons, hpb]
      exact ih (List.nodup_cons.mp hnd).2 ha' (fun x hx => hiff x (by simp [hx]))

theorem addInv_empty : AddInv createEmptyStore := by
  refine ⟨?_, ?_, ?_, ?_, ?_, ?_⟩
  · simp [createEmptyStore]
  · rfl
  · simp [createEmptyStore]
  · rfl
  · intro fid g hg
    simp [createEmptyStore, alookup] at hg
  · intro c cp hc
    simp [createEmptyStore, alookup] at hc

theorem addInv_C1Prop (st : ICheckpointStore) (hInv : AddInv st) : C1Prop st := by
  constructor
  · intro c hc
    have hckeys : c ∈ keysOf st.checkpoints.byId := by
      rw [hInv.ckeys]
      exact hc
    rcases hcp : alookup st.checkpoints.byId c with _ | cp
    · exact absurd ((alookup_eq_none_iff _ _).mp hcp) (by simpa using hckeys)
    · obtain ⟨hcid, g, hg, hmem⟩ := hInv.cpOk c cp hcp
      have hpmem : cp.parent ∈ st.files.allIds := by
        rw [← hInv.fkeys]
        exact mem_keysOf_of_alookup _ _ _ hg
      have hsingle : filesContaining st c = [cp.parent] := by
        apply filter_eq_singleton_of_iff _ _ _ hInv.fnodup hpmem
        intro fid hfid
        rcases hl : alookup st.files.byId fid with _ | f
        · simp only [hl]
          constructor
          · intro hfalse
            exact absurd hfalse (by simp)
          · intro he
            subst he
            rw [hl] at hg
            exact Option.noConfusion hg
        · simp only [hl]
          constructor
          · intro hcontains
            have hcmem : c ∈ f.checkpointIds := by simpa using hcontains
            obtain ⟨hfidok, hall⟩ := hInv.fileOk fid f hl
            obtain ⟨cp2, hcp2, hpar2⟩ := hall c hcmem
            rw [hcp] at hcp2
            obtain rfl := Option.some.inj hcp2
            exact hpar2.symm
          · intro he
            subst he
            rw [hl] at hg
            obtain rfl := Option.some.inj hg
            simpa using hmem
      rw [hsingle]
      rfl
  · intro p hp
    have hkeysnd : (keysOf st.checkpoints.byId).Nodup := by
      rw [hInv.ckeys]
      exact hInv.cnodup
    have hl : alookup st.checkpoints.byId p.1 = some p.2 :=
      alookup_of_mem_keysNodup _ _ _ hkeysnd hp
    obtain ⟨hcid, g, hg, hmem⟩ := hInv.cpOk p.1 p.2 hl
    refine ⟨?_, g, hg, ?_⟩
    · rw [← hInv.fkeys]
      exact mem_keysOf_of_alookup _ _ _ hg
    · rw [hcid]
      exact hmem

/-- Claim C1 (amended): for every sequence of `add` calls starting from the
empty store whose timestamp-derived checkpoint ids are pairwise distinct (the
spec leaves same-timestamp behaviour unspecified), after the whole sequence —
hence after each call, every prefix being such a sequence — every checkpoint
id in `checkpoints.allIds` appears in exactly one file's `checkpointIds`, and
every checkpoint's `parent` is a file id in `files.allIds` whose
`checkpointIds` contains that checkpoint's id. -/
theorem addSequences_consistency (ops : List AddOp)
    (h : (ops.map (fun o => toString o.timestamp)).Nodup) : C1Prop (runAdds ops) := by
  apply addInv_C1Prop
  apply addInv_foldl ops createEmptyStore addInv_empty ?_ h
  intro o ho
  simp [createEmptyStore]

/-- Claim C1 (counterexample): two `add` calls with the same timestamp
against two different files leave the shared checkpoint id inside BOTH files'
`checkpointIds`, so it does not appear in exactly one file. -/
theorem addSequences_consistency_cex :
    ¬ C1Prop (runAdds [{ documentId := "file:///x/a.txt", text := "t1", name := "v1", timestamp := 1000 },
      { documentId := "file:///y/a.txt", text := "t2", name := "v2", timestamp := 1000 }]) := by
  intro h
  have h1 := h.1 "1000" (by decide)
  have h2 : (filesContaining (runAdds
      [{ documentId := "file:///x/a.txt", text := "t1", name := "v1", timestamp := 1000 },
       { documentId := "file:///y/a.txt", text := "t2", name := "v2", timestamp := 1000 }])
      "1000").length = 2 := by decide
  rw [h2] at h1
  exact absurd h1 (by decide)

/-- Witness for `addSequences_consistency` at a two-add sequence with
distinct timestamps. -/
theorem addSequences_consistency_witness :
    (([{ documentId := "file:///x/a.txt", text := "t1", name := "v1", timestamp := 1000 },
       { documentId := "file:///x/a.txt", text := "t2", name := "v2", timestamp := 2000 }] :
      List AddOp).map (fun o => toString o.timestamp)).Nodup ∧
    C1Prop (runAdds
      [{ documentId := "file:///x/a.txt", text := "t1", name := "v1", timestamp := 1000 },
       { documentId := "file:///x/a.txt", text := "t2", name := "v2", timestamp := 2000 }]) :=
  ⟨by decide, addSequences_consistency _ (by decide)⟩

theorem dupMatches_nil (st : ICheckpointStore) (nm : String) : dupMatches st nm [] = [] := rfl

theorem dupMatches_cons_none (st : ICheckpointStore) (nm fid : String) (l : List String)
    (h : alookup st.files.byId fid = none) :
    dupMatches st nm (fid :: l) = dupMatches st nm l := by
  simp [dupMatches, List.filter_cons, h]

theorem dupMatches_cons_some_eq (st : ICheckpointStore) (nm fid : String) (l : List String)
    (f : IFile) (h : alookup st.files.byId fid = some f) (hn : nm = f.name) :
    dupMatches st nm (fid :: l) = fid :: dupMatches st nm l := by
  simp [dupMatches, List.filter_cons, h, hn]

theorem dupMatches_cons_some_ne (st : ICheckpointStore) (nm fid : String) (l : List String)
    (f : IFile) (h : alookup st.files.byId fid = some f) (hn : ¬ nm = f.name) :
    dupMatches st nm (fid :: l) = dupMatches st nm l := by
  simp [dupMatches, List.filter_cons, h, hn]

theorem dupMatches_congr (st1 st2 : ICheckpointStore) (nm : String) (l : List String)
    (h : ∀ x ∈ l, alookup st1.files.byId x = alookup st2.files.byId x) :
    dupMatches st1 nm l = dupMatches st2 nm l := by
  induction l with
  | nil => rfl
  | cons a t ih =>
    have ha := h a (by simp)
    have ht := ih (fun x hx => h x (by simp [hx]))
    simp only [dupMatches, List.filter_cons] at ht ⊢
    rw [ha, ht]

theorem dupMatches_sublist (st : ICheckpointStore) (nm : String) (l : List String) :
    (dupMatches st nm l).Sublist l :=
  List.filter_sublist l

theorem dupMatches_mem (st : ICheckpointStore) (nm : String) (l : List String) (x : String) :
    x ∈ dupMatches st nm l ↔
      x ∈ l ∧ ∃ f, alookup st.files.byId x = some f ∧ f.name = nm := by
  simp only [dupMatches, List.mem_filter]
  constructor
  · rintro ⟨hx, hp⟩
    refine ⟨hx, ?_⟩
    rcases hl : alookup st.files.byId x with _ | f
    · rw [hl] at hp
      simp at hp
    · rw [hl] at hp
      refine ⟨f, rfl, ?_⟩
      have : nm = f.name := by simpa using hp
      exact this.symm
  · rintro ⟨hx, f, hf, hn⟩
    refine ⟨hx, ?_⟩
    rw [hf]
    simp [hn]

theorem hndGo_spec (l : List String) : ∀ (st : ICheckpointStore) (nf : IFile),
    l.Nodup →
    (∀ fid ∈ l, ∀ g, alookup st.files.byId fid = some g → g.id = fid) →
    (∀ k, k ∉ l →
      alookup (handleNewDuplicatesGo l st nf).1.files.byId k = alookup st.files.byId k) ∧
    (∀ k, k ∈ l →
      alookup (handleNewDuplicatesGo l st nf).1.files.byId k =
        (alookup st.files.byId k).map (fun f =>
          if nf.name = f.name then
            { f with fileNameDuplicates := f.fileNameDuplicates ++ [nf.id] }
          else f)) ∧
    (handleNewDuplicatesGo l st nf).2.fileNameDuplicates
      = nf.fileNameDuplicates ++ dupMatches st nf.name l := by
  induction l with
  | nil =>
    intro st nf _ _
    exact ⟨fun k _ => rfl, fun k hk => absurd hk (by simp), by rw [dupMatches_nil]; simp; rfl⟩
  | cons fid rest ih =>
    intro st nf hlnd hids
    obtain ⟨hfidrest, hrestnd⟩ := List.nodup_cons.mp hlnd
    rcases h : alookup st.files.byId fid with _ | f
    · have heq : handleNewDuplicatesGo (fid :: rest) st nf
          = handleNewDuplicatesGo rest st nf := by
        simp [handleNewDuplicatesGo, h]
      obtain ⟨iha, ihb, ihc⟩ := ih st nf hrestnd (fun x hx => hids x (by simp [hx]))
      rw [heq]
      refine ⟨?_, ?_, ?_⟩
      · intro k hk
        exact iha k (fun hkr => hk (by simp [hkr]))
      · intro k hk
        rcases List.mem_cons.mp hk with hk1 | hk1
        · subst hk1
          rw [iha k hfidrest, h]
          rfl
        · exact ihb k hk1
      · rw [ihc, dupMatches_cons_none st nf.name fid rest h]
    · have hfid : f.id = fid := hids fid (by simp) f h
      by_cases hn : nf.name = f.name
      · have heq : handleNewDuplicatesGo (fid :: rest) st nf
            = handleNewDuplicatesGo rest
              (setFileById st fid { f with fileNameDuplicates := f.fileNameDuplicates ++ [nf.id] })
              { nf with fileNameDuplicates := nf.fileNameDuplicates ++ [f.id] } := by
          simp [handleNewDuplicatesGo, h, hn]
        have hlook : ∀ x, x ≠ fid →
            alookup (setFileById st fid
              { f with fileNameDuplicates := f.fileNameDuplicates ++ [nf.id] }).files.byId x
            = alookup st.files.byId x := by
          intro x hx
          exact alookup_aset_ne _ _ _ _ hx
        have hids' : ∀ x ∈ rest, ∀ g,
            alookup (setFileById st fid
              { f with fileNameDuplicates := f.fileNameDuplicates ++ [nf.id] }).files.byId x
              = some g → g.id = x := by
          intro x hx g hg
          rw [hlook x (fun he => hfidrest (he ▸ hx))] at hg
          exact hids x (by simp [hx]) g hg
        obtain ⟨iha, ihb, ihc⟩ := ih
          (setFileById st fid { f with fileNameDuplicates := f.fileNameDuplicates ++ [nf.id] })
          { nf with fileNameDuplicates := nf.fileNameDuplicates ++ [f.id] } hrestnd hids'
        rw [heq]
        refine ⟨?_, ?_, ?_⟩
        · intro k hk
          rw [iha k (fun hkr => hk (by simp [hkr])), hlook k (fun he => hk (by simp [he]))]
        · intro k hk
          rcases List.mem_cons.mp hk with hk1 | hk1
          · subst hk1
            rw [iha k hfidrest]
            rw [show alookup (setFileById st k
                { f with fileNameDuplicates := f.fileNameDuplicates ++ [nf.id] }).files.byId k
              = some { f with fileNameDuplicates := f.fileNameDuplicates ++ [nf.id] } from
              alookup_aset_self _ _ _]
            rw [h]
            simp [hn]
          · rw [ihb k hk1, hlook k (fun he => hfidrest (he ▸ hk1))]
        · rw [ihc]
          show (nf.fileNameDuplicates ++ [f.id]) ++ _ = _
          rw [dupMatches_cons_some_eq st nf.name fid rest f h hn,
            dupMatches_congr _ st nf.name rest
              (fun x hx => hlook x (fun he => hfidrest (he ▸ hx))), hfid]
          simp
      · have heq : handleNewDuplicatesGo (fid :: rest) st nf
            = handleNewDuplicatesGo rest st nf := by
          simp [handleNewDuplicatesGo, h, hn]
        obtain ⟨iha, ihb, ihc⟩ := ih st nf hrestnd (fun x hx => hids x (by simp [hx]))
        rw [heq]
        refine ⟨?_, ?_, ?_⟩
        · intro k hk
          exact iha k (fun hkr => hk (by simp [hkr]))
        · intro k hk
          rcases List.mem_cons.mp hk with hk1 | hk1
          · subst hk1
            rw [iha k hfidrest, h]
            simp [hn]
          · exact ihb k hk1
        · rw [ihc, dupMatches_cons_some_ne st nf.name fid rest f h hn]

theorem hrdGo_keys (l : List String) (st : ICheckpointStore) (rid : String) :
    keysOf (handleRemovedDuplicatesGo l st rid).files.byId = keysOf st.files.byId := by
  induction l generalizing st with
  | nil => rfl
  | cons fid rest ih =>
    rcases h : alookup st.files.byId fid with _ | df
    · simpa [handleRemovedDuplicatesGo, h] using ih st
    · have hmem : fid ∈ keysOf st.files.byId := mem_keysOf_of_alookup _ _ _ h
      have heq : handleRemovedDuplicatesGo (fid :: rest) st rid
          = handleRemovedDuplicatesGo rest
            (setFileById st fid
              { df with fileNameDuplicates := findIndexSplice1 df.fileNameDuplicates rid }) rid := by
        simp [handleRemovedDuplicatesGo, h]
      rw [heq, ih, show keysOf (setFileById st fid
          { df with fileNameDuplicates := findIndexSplice1 df.fileNameDuplicates rid }).files.byId
        = keysOf st.files.byId from keysOf_aset_of_mem _ _ _ hmem]

theorem hrdGo_spec (l : List String) : ∀ (st : ICheckpointStore) (rid : String),
    l.Nodup →
    (∀ k, k ∉ l →
      alookup (handleRemovedDuplicatesGo l st rid).files.byId k = alookup st.files.byId k) ∧
    (∀ k, k ∈ l →
      alookup (handleRemovedDuplicatesGo l st rid).files.byId k =
        (alookup st.files.byId k).map (fun g =>
          { g with fileNameDuplicates := findIndexSplice1 g.fileNameDuplicates rid })) := by
  induction l with
  | nil =>
    intro st rid _
    exact ⟨fun k _ => rfl, fun k hk => absurd hk (by simp)⟩
  | cons fid rest ih =>
    intro st rid hlnd
    obtain ⟨hfidrest, hrestnd⟩ := List.nodup_cons.mp hlnd
    rcases h : alookup st.files.byId fid with _ | df
    · have heq : handleRemovedDuplicatesGo (fid :: rest) st rid
          = handleRemovedDuplicatesGo rest st rid := by
        simp [handleRemovedDuplicatesGo, h]
      obtain ⟨iha, ihb⟩ := ih st rid hrestnd
      rw [heq]
      refine ⟨?_, ?_⟩
      · intro k hk
        exact iha k (fun hkr => hk (by simp [hkr]))
      · intro k hk
        rcases List.mem_cons.mp hk with hk1 | hk1
        · subst hk1
          rw [iha k hfidrest, h]
          rfl
        · exact ihb k hk1
    · have heq : handleRemovedDuplicatesGo (fid :: rest) st rid
          = handleRemovedDuplicatesGo rest
            (setFileById st fid
              { df with fileNameDuplicates := findIndexSplice1 df.fileNameDuplicates rid }) rid := by
        simp [handleRemovedDuplicatesGo, h]
      have hlook : ∀ x, x ≠ fid →
          alookup (setFileById st fid
            { df with fileNameDuplicates := findIndexSplice1 df.fileNameDuplicates rid }).files.byId x
          = alookup st.files.byId x := by
        intro x hx
        exact alookup_aset_ne _ _ _ _ hx
      obtain ⟨iha, ihb⟩ := ih
        (setFileById st fid
          { df with fileNameDuplicates := findIndexSplice1 df.fileNameDuplicates rid }) rid hrestnd
      rw [heq]
      refine ⟨?_, ?_⟩
      · intro k hk
        rw [iha k (fun hkr => hk (by simp [hkr])), hlook k (fun he => hk (by simp [he]))]
      · intro k hk
        rcases List.mem_cons.mp hk with hk1 | hk1
        · subst hk1
          rw [iha k hfidrest]
          rw [show alookup (setFileById st k
              { df with fileNameDuplicates := findIndexSplice1 df.fileNameDuplicates rid }).files.byId k
            = some { df with fileNameDuplicates := findIndexSplice1 df.fileNameDuplicates rid } from
            alookup_aset_self _ _ _]
          rw [h]
          rfl
        · rw [ihb k hk1, hlook k (fun he => hfidrest (he ▸ hk1))]

theorem dupInv_of_files_eq (st st' : ICheckpointStore) (h : st'.files = st.files)
    (hInv : DupInv st) : DupInv st' := by
  refine ⟨?_, ?_, ?_, ?_, ?_, ?_, ?_⟩ <;> rw [h]
  · exact hInv.fnodup
  · exact hInv.fkeys
  · exact hInv.fid
  · exact hInv.dnodup
  · exact hInv.dself
  · exact hInv.dsym
  · exact hInv.dcomp

theorem dupInv_empty : DupInv createEmptyStore := by
  refine ⟨?_, ?_, ?_, ?_, ?_, ?_, ?_⟩
  · simp [createEmptyStore]
  · rfl
  · intro k g hg
    simp [createEmptyStore, alookup] at hg
  · intro k g hg
    simp [createEmptyStore, alookup] at hg
  · intro k g hg
    simp [createEmptyStore, alookup] at hg
  · intro k g hg
    simp [createEmptyStore, alookup] at hg
  · intro k g k2 g2 hg
    simp [createEmptyStore, alookup] at hg

theorem dupInv_setSame (st : ICheckpointStore) (k : String) (f g : IFile)
    (hInv : DupInv st) (hg : alookup st.files.byId k = some g)
    (hid : f.id = g.id) (hname : f.name = g.name)
    (hdups : f.fileNameDuplicates = g.fileNameDuplicates) :
    DupInv (setFileById st k f) := by
  have hkeys : keysOf (setFileById st k f).files.byId = keysOf st.files.byId :=
    keysOf_aset_of_mem _ _ _ (mem_keysOf_of_alookup _ _ _ hg)
  have hlook : ∀ x, alookup (setFileById st k f).files.byId x
      = if x = k then some f else alookup st.files.byId x := by
    intro x
    by_cases hx : x = k
    · subst hx
      simp [setFileById, alookup_aset_self]
    · simp [hx, setFileById, alookup_aset_ne _ _ _ _ hx]
  have hcase : ∀ x g', alookup (setFileById st k f).files.byId x = some g' →
      ∃ g0, alookup st.files.byId x = some g0 ∧ g'.id = g0.id ∧ g'.name = g0.name ∧
        g'.fileNameDuplicates = g0.fileNameDuplicates := by
    intro x g' hg'
    rw [hlook] at hg'
    by_cases hx : x = k
    · rw [if_pos hx] at hg'
      obtain rfl := Option.some.inj hg'
      subst hx
      exact ⟨g, hg, hid, hname, hdups⟩
    · rw [if_neg hx] at hg'
      exact ⟨g', hg', rfl, rfl, rfl⟩
  refine ⟨?_, ?_, ?_, ?_, ?_, ?_, ?_⟩
  · show st.files.allIds.Nodup
    exact hInv.fnodup
  · rw [hkeys]
    exact hInv.fkeys
  · intro x g' hg'
    obtain ⟨g0, hg0, h1, -, -⟩ := hcase x g' hg'
    rw [h1]
    exact hInv.fid x g0 hg0
  · intro x g' hg'
    obtain ⟨g0, hg0, -, -, h3⟩ := hcase x g' hg'
    rw [h3]
    exact hInv.dnodup x g0 hg0
  · intro x g' hg'
    obtain ⟨g0, hg0, -, -, h3⟩ := hcase x g' hg'
    rw [h3]
    exact hInv.dself x g0 hg0
  · intro x g' hg' d hd
    obtain ⟨g0, hg0, -, h2, h3⟩ := hcase x g' hg'
    rw [h3] at hd
    obtain ⟨g2, hg2, hmem2, hname2⟩ := hInv.dsym x g0 hg0 d hd
    rw [hlook d]
    by_cases hdk : d = k
    · subst hdk
      rw [if_pos rfl]
      rw [hg2] at hg
      obtain rfl := Option.some.inj hg
      exact ⟨f, rfl, by rw [hdups]; exact hmem2, by rw [hname, h2, hname2]⟩
    · rw [if_neg hdk]
      exact ⟨g2, hg2, hmem2, by rw [h2, hname2]⟩
  · intro x g' x2 g2' hg' hg2' hne hnm
    obtain ⟨g0, hg0, -, hn0, h30⟩ := hcase x g' hg'
    obtain ⟨g20, hg20, -, hn20, -⟩ := hcase x2 g2' hg2'
    rw [h30]
    exact hInv.dcomp x g0 x2 g20 hg0 hg20 hne (by rw [← hn0, ← hn20]; exact hnm)

theorem dupInv_filePhase (st : ICheckpointStore) (d : String) (hInv : DupInv st) :
    DupInv (addFilePhase st d) := by
  rcases hd : alookup st.files.byId d with _ | f0
  · have hdkeys : d ∉ keysOf st.files.byId := (alookup_eq_none_iff _ _).mp hd
    have hdall : d ∉ st.files.allIds := by
      rw [← hInv.fkeys]
      exact hdkeys
    obtain ⟨speca0, specb0, specc0⟩ := hndGo_spec st.files.allIds st (addNewFile d)
      hInv.fnodup (fun fid _ g hg => hInv.fid fid g hg)
    have speca : ∀ k, k ∉ st.files.allIds →
        alookup (handleNewDuplicates st (addNewFile d)).1.files.byId k
          = alookup st.files.byId k := speca0
    have specb : ∀ k, k ∈ st.files.allIds →
        alookup (handleNewDuplicates st (addNewFile d)).1.files.byId k
          = (alookup st.files.byId k).map (fun f =>
              if (addNewFile d).name = f.name then
                { f with fileNameDuplicates := f.fileNameDuplicates ++ [(addNewFile d).id] }
              else f) := specb0
    have hnfid : (handleNewDuplicates st (addNewFile d)).2.id = d := by
      simpa [addNewFile] using handleNewDuplicates_snd_id st (addNewFile d)
    have hnfname : (handleNewDuplicates st (addNewFile d)).2.name = (addNewFile d).name :=
      (hndGo_snd st.files.allIds st (addNewFile d)).2.1
    have hnfdups : (handleNewDuplicates st (addNewFile d)).2.fileNameDuplicates
        = dupMatches st (addNewFile d).name st.files.allIds := by
      have h2 : (handleNewDuplicates st (addNewFile d)).2.fileNameDuplicates
          = (addNewFile d).fileNameDuplicates
            ++ dupMatches st (addNewFile d).name st.files.allIds := specc0
      rw [h2]
      show [] ++ _ = _
      simp
    obtain ⟨hcps, hallIds, hkeys2, -, -⟩ := addFilePhase_none_spec st d hd
    have hlookR : ∀ x, alookup (addFilePhase st d).files.byId x
        = if x = d then some (handleNewDuplicates st (addNewFile d)).2
          else alookup (handleNewDuplicates st (addNewFile d)).1.files.byId x := by
      intro x
      rw [addFilePhase_of_none st d hd]
      show alookup (aset (handleNewDuplicates st (addNewFile d)).1.files.byId
        (handleNewDuplicates st (addNewFile d)).2.id
        (handleNewDuplicates st (addNewFile d)).2) x = _
      rw [hnfid]
      by_cases hx : x = d
      · subst hx
        rw [if_pos rfl, alookup_aset_self]
      · rw [if_neg hx, alookup_aset_ne _ _ _ _ hx]
    have hcases : ∀ x g', alookup (addFilePhase st d).files.byId x = some g' →
        (x = d ∧ g' = (handleNewDuplicates st (addNewFile d)).2) ∨
        (x ≠ d ∧ x ∈ st.files.allIds ∧ ∃ g0, alookup st.files.byId x = some g0 ∧
          g' = (if (addNewFile d).name = g0.name then
            { g0 with fileNameDuplicates := g0.fileNameDuplicates ++ [(addNewFile d).id] }
          else g0)) := by
      intro x g' hg'
      rw [hlookR] at hg'
      by_cases hx : x = d
      · rw [if_pos hx] at hg'
        exact Or.inl ⟨hx, (Option.some.inj hg').symm⟩
      · rw [if_neg hx] at hg'
        by_cases hmem : x ∈ st.files.allIds
        · rw [specb x hmem] at hg'
          rcases hst : alookup st.files.byId x with _ | g0
          · rw [hst] at hg'
            exact Option.noConfusion hg'
          · rw [hst] at hg'
            refine Or.inr ⟨hx, hmem, g0, rfl, ?_⟩
            exact (Option.some.inj hg').symm
        · rw [speca x hmem] at hg'
          have : x ∈ keysOf st.files.byId := mem_keysOf_of_alookup _ _ _ hg'
          rw [hInv.fkeys] at this
          exact absurd this hmem
    have hdnotdups : ∀ x g0, alookup st.files.byId x = some g0 → d ∉ g0.fileNameDuplicates := by
      intro x g0 hg0 hmem
      obtain ⟨g2, hg2, -, -⟩ := hInv.dsym x g0 hg0 d hmem
      rw [hd] at hg2
      exact Option.noConfusion hg2
    refine ⟨?_, ?_, ?_, ?_, ?_, ?_, ?_⟩
    · rw [hallIds, List.nodup_append]
      refine ⟨hInv.fnodup, List.nodup_singleton d, ?_⟩
      intro a ha hb
      simp at hb
      subst hb
      exact hdall ha
    · rw [hkeys2, hallIds, hInv.fkeys]
    · intro x g' hg'
      rcases hcases x g' hg' with ⟨hx, hgeq⟩ | ⟨hx, hmem, g0, hg0, hgeq⟩
      · rw [hgeq, hnfid, hx]
      · by_cases hc : (addNewFile d).name = g0.name
        · rw [hgeq, if_pos hc]
          exact hInv.fid x g0 hg0
        · rw [hgeq, if_neg hc]
          exact hInv.fid x g0 hg0
    · intro x g' hg'
      rcases hcases x g' hg' with ⟨hx, hgeq⟩ | ⟨hx, hmem, g0, hg0, hgeq⟩
      · rw [hgeq, hnfdups]
        exact List.Nodup.sublist (dupMatches_sublist st (addNewFile d).name st.files.allIds)
          hInv.fnodup
      · by_cases hc : (addNewFile d).name = g0.name
        · rw [hgeq, if_pos hc]
          show (g0.fileNameDuplicates ++ [(addNewFile d).id]).Nodup
          rw [List.nodup_append]
          refine ⟨hInv.dnodup x g0 hg0, List.nodup_singleton _, ?_⟩
          intro a ha hb
          have hb' : a = d := by simpa [addNewFile] using hb
          subst hb'
          exact hdnotdups x g0 hg0 ha
        · rw [hgeq, if_neg hc]
          exact hInv.dnodup x g0 hg0
    · intro x g' hg'
      rcases hcases x g' hg' with ⟨hx, hgeq⟩ | ⟨hx, hmem, g0, hg0, hgeq⟩
      · subst x
        rw [hgeq, hnfdups]
        intro hmem2
        exact hdall ((dupMatches_mem _ _ _ _).mp hmem2).1
      · by_cases hc : (addNewFile d).name = g0.name
        · rw [hgeq, if_pos hc]
          intro hmem2
          rcases (by simpa [addNewFile] using hmem2 :
              x ∈ g0.fileNameDuplicates ∨ x = d) with hmem3 | hmem3
          · exact hInv.dself x g0 hg0 hmem3
          · exact hx hmem3
        · rw [hgeq, if_neg hc]
          exact hInv.dself x g0 hg0
    · intro x g' hg' e he
      rcases hcases x g' hg' with ⟨hx, hgeq⟩ | ⟨hx, hmem, g0, hg0, hgeq⟩
      · subst x
        rw [hgeq, hnfdups] at he
        obtain ⟨heall, f1, hf1, hf1name⟩ := (dupMatches_mem _ _ _ _).mp he
        have hed : e ≠ d := fun hh => hdall (hh ▸ heall)
        refine ⟨{ f1 with fileNameDuplicates := f1.fileNameDuplicates ++ [(addNewFile d).id] },
          ?_, ?_, ?_⟩
        · rw [hlookR, if_neg hed, specb e heall, hf1]
          simp [hf1name.symm]
        · simp [addNewFile]
        · rw [hgeq, hnfname]
          show f1.name = _
          rw [hf1name]
      · by_cases hc : (addNewFile d).name = g0.name
        · rw [hgeq, if_pos hc] at he
          rcases (by simpa [addNewFile] using he :
              e ∈ g0.fileNameDuplicates ∨ e = d) with he1 | he1
          · obtain ⟨g2, hg2, hxmem, hg2name⟩ := hInv.dsym x g0 hg0 e he1
            have heall : e ∈ st.files.allIds := by
              rw [← hInv.fkeys]
              exact mem_keysOf_of_alookup _ _ _ hg2
            have hed : e ≠ d := fun hh => hdall (hh ▸ heall)
            by_cases hc2 : (addNewFile d).name = g2.name
            · refine ⟨{ g2 with fileNameDuplicates := g2.fileNameDuplicates ++ [(addNewFile d).id] },
                ?_, ?_, ?_⟩
              · rw [hlookR, if_neg hed, specb e heall, hg2]
                simp [hc2]
              · simp [hxmem]
              · show g2.name = g'.name
                rw [hgeq, if_pos hc]
                show g2.name = g0.name
                exact hg2name
            · refine ⟨g2, ?_, hxmem, ?_⟩
              · rw [hlookR, if_neg hed, specb e heall, hg2]
                simp [hc2]
              · show g2.name = g'.name
                rw [hgeq, if_pos hc]
                show g2.name = g0.name
                exact hg2name
          · subst e
            refine ⟨(handleNewDuplicates st (addNewFile d)).2, ?_, ?_, ?_⟩
            · rw [hlookR, if_pos rfl]
            · rw [hnfdups]
              refine (dupMatches_mem _ _ _ _).mpr ⟨hmem, g0, hg0, hc.symm⟩
            · rw [hnfname, hgeq, if_pos hc]
              show (addNewFile d).name = g0.name
              exact hc
        · rw [hgeq, if_neg hc] at he
          obtain ⟨g2, hg2, hxmem, hg2name⟩ := hInv.dsym x g0 hg0 e he
          have heall : e ∈ st.files.allIds := by
            rw [← hInv.fkeys]
            exact mem_keysOf_of_alookup _ _ _ hg2
          have hed : e ≠ d := fun hh => hdall (hh ▸ heall)
          by_cases hc2 : (addNewFile d).name = g2.name
          · refine ⟨{ g2 with fileNameDuplicates := g2.fileNameDuplicates ++ [(addNewFile d).id] },
              ?_, ?_, ?_⟩
            · rw [hlookR, if_neg hed, specb e heall, hg2]
              simp [hc2]
            · simp [hxmem]
            · show g2.name = g'.name
              rw [hgeq, if_neg hc]
              exact hg2name
          · refine ⟨g2, ?_, hxmem, ?_⟩
            · rw [hlookR, if_neg hed, specb e heall, hg2]
              simp [hc2]
            · show g2.name = g'.name
              rw [hgeq, if_neg hc]
              exact hg2name
    · intro x g' x2 g2' hg' hg2' hne hnm
      rcases hcases x g' hg' with ⟨hx, hgeq⟩ | ⟨hx, hmem, g0, hg0, hgeq⟩
      · subst x
        rcases hcases x2 g2' hg2' with ⟨hx2, hgeq2⟩ | ⟨hx2, hmem2, g20, hg20, hgeq2⟩
        · exact absurd (hx2 ▸ rfl : d = d) (by subst x2; exact fun _ => hne rfl)
        · rw [hgeq, hnfdups]
          have hn20 : g2'.name = g20.name := by
            by_cases hc : (addNewFile d).name = g20.name
            · rw [hgeq2, if_pos hc]
            · rw [hgeq2, if_neg hc]
          refine (dupMatches_mem _ _ _ _).mpr ⟨hmem2, g20, hg20, ?_⟩
          rw [← hn20, ← hnm, hgeq, hnfname]
      · rcases hcases x2 g2' hg2' with ⟨hx2, hgeq2⟩ | ⟨hx2, hmem2, g20, hg20, hgeq2⟩
        · subst x2
          have hn0 : g'.name = g0.name := by
            by_cases hc : (addNewFile d).name = g0.name
            · rw [hgeq, if_pos hc]
            · rw [hgeq, if_neg hc]
          have hc : (addNewFile d).name = g0.name := by
            rw [← hn0, hnm, hgeq2, hnfname]
          rw [hgeq, if_pos hc]
          simp [addNewFile]
        · have hn0 : g'.name = g0.name := by
            by_cases hc : (addNewFile d).name = g0.name
            · rw [hgeq, if_pos hc]
            · rw [hgeq, if_neg hc]
          have hn20 : g2'.name = g20.name := by
            by_cases hc : (addNewFile d).name = g20.name
            · rw [hgeq2, if_pos hc]
            · rw [hgeq2, if_neg hc]
          have hold := hInv.dcomp x g0 x2 g20 hg0 hg20 hne (by rw [← hn0, ← hn20]; exact hnm)
          by_cases hc : (addNewFile d).name = g0.name
          · rw [hgeq, if_pos hc]
            simp [hold]
          · rw [hgeq, if_neg hc]
            exact hold
  · rw [addFilePhase_of_isSome st d (by simp [hd])]
    exact hInv

theorem dupInv_removeFile (st : ICheckpointStore) (k : String) (f : IFile)
    (hInv : DupInv st) (hf : alookup st.files.byId k = some f) :
    DupInv (handleRemovedDuplicatesGo f.fileNameDuplicates
      { st with files := { byId := adel st.files.byId f.id, allIds := findIndexSplice1 st.files.allIds f.id } } f.id) := by
  have hfid : f.id = k := hInv.fid k f hf
  rw [hfid]
  have hknotdups : k ∉ f.fileNameDuplicates := hInv.dself k f hf
  have hlnd : f.fileNameDuplicates.Nodup := hInv.dnodup k f hf
  have hkall : k ∈ st.files.allIds := by
    rw [← hInv.fkeys]
    exact mem_keysOf_of_alookup _ _ _ hf
  have hsplice : findIndexSplice1 st.files.allIds k = st.files.allIds.erase k :=
    findIndexSplice1_of_mem _ _ hkall
  obtain ⟨speca0, specb0⟩ := hrdGo_spec f.fileNameDuplicates
    { st with files := { byId := adel st.files.byId k, allIds := findIndexSplice1 st.files.allIds k } } k hlnd
  have hstD : ∀ x, alookup ({ st with files := { byId := adel st.files.byId k, allIds := findIndexSplice1 st.files.allIds k } } : ICheckpointStore).files.byId x
      = if x = k then none else alookup st.files.byId x := by
    intro x
    show alookup (adel st.files.byId k) x = _
    by_cases hx : x = k
    · subst hx
      rw [if_pos rfl, alookup_adel_self]
    · rw [if_neg hx, alookup_adel_ne _ _ _ hx]
  have hrev : ∀ x g0, alookup st.files.byId x = some g0 → x ≠ k →
      (k ∈ g0.fileNameDuplicates ↔ x ∈ f.fileNameDuplicates) := by
    intro x g0 hg0 hx
    constructor
    · intro hmem
      obtain ⟨f', hf', hxmem, -⟩ := hInv.dsym x g0 hg0 k hmem
      rw [hf] at hf'
      obtain rfl := Option.some.inj hf'
      exact hxmem
    · intro hmem
      obtain ⟨g0', hg0', hkmem, -⟩ := hInv.dsym k f hf x hmem
      rw [hg0] at hg0'
      obtain rfl := Option.some.inj hg0'
      exact hkmem
  have hlookk : alookup (handleRemovedDuplicatesGo f.fileNameDuplicates
      { st with files := { byId := adel st.files.byId k, allIds := findIndexSplice1 st.files.allIds k } } k).files.byId k
      = none := by
    rw [speca0 k hknotdups, hstD k, if_pos rfl]
  have hlookdup : ∀ x, x ∈ f.fileNameDuplicates → ∀ g0, alookup st.files.byId x = some g0 →
      alookup (handleRemovedDuplicatesGo f.fileNameDuplicates
        { st with files := { byId := adel st.files.byId k, allIds := findIndexSplice1 st.files.allIds k } } k).files.byId x
      = some { g0 with fileNameDuplicates := g0.fileNameDuplicates.erase k } := by
    intro x hx g0 hg0
    have hxk : x ≠ k := fun he => hknotdups (he ▸ hx)
    have hkmem : k ∈ g0.fileNameDuplicates := (hrev x g0 hg0 hxk).mpr hx
    rw [specb0 x hx, hstD x, if_neg hxk, hg0]
    simp only [Option.map_some']
    rw [findIndexSplice1_of_mem _ _ hkmem]
  have hlookother : ∀ x, x ≠ k → x ∉ f.fileNameDuplicates →
      alookup (handleRemovedDuplicatesGo f.fileNameDuplicates
        { st with files := { byId := adel st.files.byId k, allIds := findIndexSplice1 st.files.allIds k } } k).files.byId x
      = alookup st.files.byId x := by
    intro x hxk hxd
    rw [speca0 x hxd, hstD x, if_neg hxk]
  have hcases : ∀ x g', alookup (handleRemovedDuplicatesGo f.fileNameDuplicates
      { st with files := { byId := adel st.files.byId k, allIds := findIndexSplice1 st.files.allIds k } } k).files.byId x
      = some g' → x ≠ k ∧ ∃ g0, alookup st.files.byId x = some g0 ∧
        g0.name = g'.name ∧ g0.id = g'.id ∧
        ((x ∈ f.fileNameDuplicates ∧
            g'.fileNameDuplicates = g0.fileNameDuplicates.erase k ∧
            k ∈ g0.fileNameDuplicates) ∨
          (x ∉ f.fileNameDuplicates ∧ g' = g0)) := by
    intro x g' hg'
    have hxk : x ≠ k := by
      intro he
      subst he
      rw [hlookk] at hg'
      exact Option.noConfusion hg'
    refine ⟨hxk, ?_⟩
    by_cases hxd : x ∈ f.fileNameDuplicates
    · rcases hst : alookup st.files.byId x with _ | g0
      · rw [specb0 x hxd, hstD x, if_neg hxk, hst] at hg'
        exact Option.noConfusion hg'
      · rw [hlookdup x hxd g0 hst] at hg'
        have hge : g' = { g0 with fileNameDuplicates := g0.fileNameDuplicates.erase k } :=
          (Option.some.inj hg').symm
        refine ⟨g0, rfl, ?_, ?_, Or.inl ⟨hxd, ?_, (hrev x g0 hst hxk).mpr hxd⟩⟩
        · rw [hge]
        · rw [hge]
        · rw [hge]
    · rw [hlookother x hxk hxd] at hg'
      exact ⟨g', hg', rfl, rfl, Or.inr ⟨hxd, rfl⟩⟩
  refine ⟨?_, ?_, ?_, ?_, ?_, ?_, ?_⟩
  · rw [show (handleRemovedDuplicatesGo f.fileNameDuplicates
      { st with files := { byId := adel st.files.byId k, allIds := findIndexSplice1 st.files.allIds k } } k).files.allIds
      = findIndexSplice1 st.files.allIds k from hrdGo_files_allIds _ _ _, hsplice]
    exact hInv.fnodup.erase k
  · rw [show keysOf (handleRemovedDuplicatesGo f.fileNameDuplicates
        { st with files := { byId := adel st.files.byId k, allIds := findIndexSplice1 st.files.allIds k } } k).files.byId
      = keysOf (adel st.files.byId k) from hrdGo_keys _ _ _]
    rw [show (handleRemovedDuplicatesGo f.fileNameDuplicates
      { st with files := { byId := adel st.files.byId k, allIds := findIndexSplice1 st.files.allIds k } } k).files.allIds
      = findIndexSplice1 st.files.allIds k from hrdGo_files_allIds _ _ _, hsplice]
    rw [keysOf_adel, hInv.fkeys, hInv.fnodup.erase_eq_filter k]
  · intro x g' hg'
    obtain ⟨hxk, g0, hg0, -, hid0, -⟩ := hcases x g' hg'
    rw [← hid0]
    exact hInv.fid x g0 hg0
  · intro x g' hg'
    obtain ⟨hxk, g0, hg0, -, -, hdisj⟩ := hcases x g' hg'
    rcases hdisj with ⟨-, hdups, -⟩ | ⟨-, hgeq⟩
    · rw [hdups]
      exact (hInv.dnodup x g0 hg0).erase k
    · rw [hgeq]
      exact hInv.dnodup x g0 hg0
  · intro x g' hg'
    obtain ⟨hxk, g0, hg0, -, -, hdisj⟩ := hcases x g' hg'
    rcases hdisj with ⟨-, hdups, -⟩ | ⟨-, hgeq⟩
    · rw [hdups]
      intro hmem
      exact hInv.dself x g0 hg0 (List.mem_of_mem_erase hmem)
    · rw [hgeq]
      exact hInv.dself x g0 hg0
  · intro x g' hg' e he
    obtain ⟨hxk, g0, hg0, hname0, -, hdisj⟩ := hcases x g' hg'
    have hestep : e ∈ g0.fileNameDuplicates ∧ e ≠ k := by
      rcases hdisj with ⟨-, hdups, -⟩ | ⟨hxd, hgeq⟩
      · rw [hdups] at he
        exact ⟨List.mem_of_mem_erase he,
          ((hInv.dnodup x g0 hg0).mem_erase_iff.mp he).1⟩
      · rw [hgeq] at he
        refine ⟨he, ?_⟩
        intro hek
        subst hek
        exact hxd ((hrev x g0 hg0 hxk).mp he)
    obtain ⟨he0, hek⟩ := hestep
    obtain ⟨g2, hg2, hxmem, hg2name⟩ := hInv.dsym x g0 hg0 e he0
    by_cases hed : e ∈ f.fileNameDuplicates
    · refine ⟨{ g2 with fileNameDuplicates := g2.fileNameDuplicates.erase k }, ?_, ?_, ?_⟩
      · exact hlookdup e hed g2 hg2
      · show x ∈ g2.fileNameDuplicates.erase k
        exact (List.mem_erase_of_ne hxk).mpr hxmem
      · show g2.name = g'.name
        rw [hg2name, hname0]
    · refine ⟨g2, ?_, hxmem, ?_⟩
      · rw [hlookother e hek hed]
        exact hg2
      · rw [hg2name, hname0]
  · intro x g' x2 g2' hg' hg2' hne hnm
    obtain ⟨hxk, g0, hg0, hname0, -, hdisj⟩ := hcases x g' hg'
    obtain ⟨hx2k, g20, hg20, hname20, -, hdisj2⟩ := hcases x2 g2' hg2'
    have hold := hInv.dcomp x g0 x2 g20 hg0 hg20 hne (by rw [hname0, hname20]; exact hnm)
    rcases hdisj with ⟨-, hdups, -⟩ | ⟨-, hgeq⟩
    · rw [hdups]
      exact (List.mem_erase_of_ne hx2k).mpr hold
    · rw [hgeq]
      exact hold

theorem dupInv_deleteCheckpoint (st : ICheckpointStore) (id : String) (hInv : DupInv st) :
    DupInv (deleteCheckpoint st id).1 := by
  rcases hcp : getCheckpoint st id with _ | cp
  · simpa [deleteCheckpoint, hcp] using hInv
  · have hInv1 : DupInv ({ st with checkpoints := { byId := adel st.checkpoints.byId cp.id, allIds := findIndexSplice1 st.checkpoints.allIds cp.id } } : ICheckpointStore) :=
      dupInv_of_files_eq st _ rfl hInv
    rcases hf0 : alookup st.files.byId cp.parent with _ | file
    · have hf1 : getFile ({ st with checkpoints := { byId := adel st.checkpoints.byId cp.id, allIds := findIndexSplice1 st.checkpoints.allIds cp.id } } : ICheckpointStore) cp.parent = none := hf0
      simp only [deleteCheckpoint, hcp, hf1]
      exact hInv1
    · have hf1 : getFile ({ st with checkpoints := { byId := adel st.checkpoints.byId cp.id, allIds := findIndexSplice1 st.checkpoints.allIds cp.id } } : ICheckpointStore) cp.parent = some file := hf0
      have hf0' : alookup ({ st with checkpoints := { byId := adel st.checkpoints.byId cp.id, allIds := findIndexSplice1 st.checkpoints.allIds cp.id } } : ICheckpointStore).files.byId cp.parent = some file := hf0
      have hifid : (if file.selection = id then { file with selection := "" } else file).id
          = file.id := by split <;> rfl
      have hifname : (if file.selection = id then { file with selection := "" } else file).name
          = file.name := by split <;> rfl
      have hifdups : (if file.selection = id then { file with selection := "" }
          else file).fileNameDuplicates = file.fileNameDuplicates := by split <;> rfl
      simp only [deleteCheckpoint, hcp, hf1]
      generalize hgen : (if file.selection = id then { file with selection := "" } else file) = f1
      rw [hgen] at hifid hifname hifdups
      have hInv2 : DupInv (setFileById ({ st with checkpoints := { byId := adel st.checkpoints.byId cp.id, allIds := findIndexSplice1 st.checkpoints.allIds cp.id } } : ICheckpointStore) cp.parent { f1 with checkpointIds := List.filter (fun i => i != cp.id) f1.checkpointIds }) :=
        dupInv_setSame _ cp.parent _ file hInv1 hf0' hifid hifname hifdups
      split
      · exact dupInv_removeFile _ cp.parent
          { f1 with checkpointIds := List.filter (fun i => i != cp.id) f1.checkpointIds }
          hInv2 (alookup_aset_self _ _ _)
      · exact hInv2

theorem dupInv_foldDel (l : List String) : ∀ st : ICheckpointStore, DupInv st →
    DupInv (l.foldl (fun s cid => (deleteCheckpoint s cid).1) st) := by
  induction l with
  | nil => intro st h; exact h
  | cons c rest ih =>
    intro st h
    exact ih _ (dupInv_deleteCheckpoint st c h)

theorem dupInv_applyOp (st : ICheckpointStore) (o : Op) (hInv : DupInv st) :
    DupInv (applyOp st o) := by
  cases o with
  | addOp d x n t =>
    show DupInv (addStore st d x n t)
    rw [addStore]
    have h1 : DupInv (addFilePhase st d) := dupInv_filePhase st d hInv
    have h2 : DupInv (addCpPhase (addFilePhase st d) (addCp d x n t)) :=
      dupInv_of_files_eq (addFilePhase st d) _ rfl h1
    rcases hg : alookup (addCpPhase (addFilePhase st d) (addCp d x n t)).files.byId
        (addCp d x n t).parent with _ | g
    · simp only [addParentPhase, hg]
      exact h2
    · rw [addParentPhase_of_some _ _ g hg]
      exact dupInv_setSame _ _ _ g h2 hg rfl rfl rfl
  | removeOp i =>
    cases i with
    | none => exact dupInv_empty
    | some i =>
      show DupInv (remove st (some i)).store
      rcases hf : getFile st i with _ | f
      · rcases hc : getCheckpoint st i with _ | cp
        · simp only [remove, hf, hc]
          exact hInv
        · have hd := deleteCheckpoint_snd st i
          rw [hc] at hd
          simp only [remove, hf, hc, hd]
          exact dupInv_deleteCheckpoint st i hInv
      · simp only [remove, hf, clearFile]
        exact dupInv_foldDel f.checkpointIds st hInv
  | renameOp i n =>
    show DupInv (renameCheckpoint st i n).store
    rcases hc : getCheckpoint st i with _ | cp
    · simp only [renameCheckpoint, hc]
      exact hInv
    · simp only [renameCheckpoint, hc]
      exact dupInv_of_files_eq st _ rfl hInv
  | selectOp c =>
    show DupInv (selectCheckpoint st c).store
    rcases hc : getCheckpoint st c with _ | cp
    · simp only [selectCheckpoint, hc]
      exact hInv
    · rcases hp : alookup st.files.byId cp.parent with _ | f
      · simp only [selectCheckpoint, hc, hp]
        exact hInv
      · simp only [selectCheckpoint, hc, hp]
        exact dupInv_setSame st cp.parent _ f hInv hp rfl rfl rfl
  | clearSelectionOp fid =>
    show DupInv (clearSelectionFromFile st fid).store
    rcases hf : getFile st fid with _ | f
    · simp only [clearSelectionFromFile, hf]
      exact hInv
    · simp only [clearSelectionFromFile, hf]
      exact dupInv_setSame st fid _ f hInv hf rfl rfl rfl

theorem dupInv_runOps (ops : List Op) : DupInv (runOps ops) := by
  have hgen : ∀ (l : List Op) (st : ICheckpointStore), DupInv st → DupInv (l.foldl applyOp st) := by
    intro l
    induction l with
    | nil => intro st h; exact h
    | cons o rest ih =>
      intro st h
      exact ih _ (dupInv_applyOp st o h)
  exact hgen ops createEmptyStore dupInv_empty

/-- Claim C7: after every sequence of engine operations from the empty store,
the duplicate-name relation is symmetric — if a file lists another id among
its `fileNameDuplicates`, that id names a present file (so a deleted file is
listed by nobody) that lists it back with the same display name — and it is
exactly the same-name relation: two distinct present files list each other
precisely when their display names are equal (so two files created with
identical base names are mutual duplicates). -/
theorem fileNameDuplicates_symmetric (ops : List Op) (k1 : String) (g1 : IFile)
    (h1 : alookup (runOps ops).files.byId k1 = some g1) (k2 : String) :
    (k2 ∈ g1.fileNameDuplicates →
      ∃ g2, alookup (runOps ops).files.byId k2 = some g2 ∧ k1 ∈ g2.fileNameDuplicates ∧
        g2.name = g1.name) ∧
    (∀ g2, alookup (runOps ops).files.byId k2 = some g2 → k1 ≠ k2 →
      (g1.name = g2.name ↔ k2 ∈ g1.fileNameDuplicates)) := by
  have hInv := dupInv_runOps ops
  constructor
  · intro hmem
    exact hInv.dsym k1 g1 h1 k2 hmem
  · intro g2 h2 hne
    constructor
    · intro hnm
      exact hInv.dcomp k1 g1 k2 g2 h1 h2 hne hnm
    · intro hmem
      obtain ⟨g2', hg2', -, hname⟩ := hInv.dsym k1 g1 h1 k2 hmem
      rw [h2] at hg2'
      obtain rfl := Option.some.inj hg2'
      exact hname.symm

theorem fileNameDuplicates_symmetric_witness :
    alookup (runOps [Op.addOp "file:///x/a.txt" "t1" "c1" 1000,
        Op.addOp "file:///y/a.txt" "t2" "c2" 2000]).files.byId "file:///x/a.txt"
      = some { id := "file:///x/a.txt", name := "a.txt", extraName := "file:///x",
               fileNameDuplicates := ["file:///y/a.txt"], checkpointIds := ["1000"],
               selection := "" } ∧
    ∃ g2, alookup (runOps [Op.addOp "file:///x/a.txt" "t1" "c1" 1000,
        Op.addOp "file:///y/a.txt" "t2" "c2" 2000]).files.byId "file:///y/a.txt" = some g2 ∧
      "file:///x/a.txt" ∈ g2.fileNameDuplicates ∧ g2.name = "a.txt" :=
  ⟨by decide,
   (fileNameDuplicates_symmetric
      [Op.addOp "file:///x/a.txt" "t1" "c1" 1000, Op.addOp "file:///y/a.txt" "t2" "c2" 2000]
      "file:///x/a.txt"
      { id := "file:///x/a.txt", name := "a.txt", extraName := "file:///x",
        fileNameDuplicates := ["file:///y/a.txt"], checkpointIds := ["1000"],
        selection := "" }
      (by decide) "file:///y/a.txt").1 (by decide)⟩
